import Mathlib

/-! migration-manager: planning, statement splitting and execution

A shallow embedding of `src/main.cpp` (functions `migrateUp` and `migrateDown`).

* `std::string` is `List Char`; `std::string::npos` is `none`.
* `unsigned int` is `Nat` with explicit reduction modulo `2 ^ 32`.
* The `std::set` of directory entries is the list of its file names in iteration
  order (all entries share the directory component `migrations`, so the order of
  the paths is the order of the file names).
* A file stream is the list of the lines that successive `std::getline` calls
  return; `eofbit` is set by the call that returns the last one.
* The database is an arbitrary state type with an `execute` function.
-/

namespace MigrationManager

/-! ## Strings -/

/-- The value of `a < b` on `std::string`: lexicographic comparison of character codes. -/
def strLess : List Char → List Char → Bool
  | [], [] => false
  | [], _ :: _ => true
  | _ :: _, [] => false
  | a :: as, b :: bs =>
    if a.toNat < b.toNat then true
    else if b.toNat < a.toNat then false
    else strLess as bs

/-- Position of the first occurrence of `pat` in `s`, the result of `s.find(pat)`
(`none` is `npos`). -/
def find (pat : List Char) : List Char → Option Nat
  | [] => if pat.isEmpty then some 0 else none
  | c :: cs =>
    if pat.isPrefixOf (c :: cs) then some 0
    else (find pat cs).map (· + 1)

/-- The result of `s.find(pat, pos)`: the first occurrence at or after `pos`. -/
def findFrom (pat s : List Char) (pos : Nat) : Option Nat :=
  if pos ≤ s.length then (find pat (s.drop pos)).map (· + pos) else none

/-- The test `s.find(pat) != std::string::npos`. -/
def containsStr (s pat : List Char) : Bool := (find pat s).isSome

/-- The result of `s.substr(pos, n)` for `pos ≤ s.size()`; `n = none` is `npos`. -/
def substr (s : List Char) (pos : Nat) (n : Option Nat) : List Char :=
  match n with
  | none => s.drop pos
  | some k => (s.drop pos).take k

/-- The identifier of a directory entry (lines 184-185, 206-207, 222-223):
`migrationId.substr(0, migrationId.find("."))` applied to the file name. -/
def migrationId (filename : List Char) : List Char :=
  substr filename 0 (find ['.'] filename)

/-! ## Planning of `up` (lines 142-200) -/

/-- Lines 143-153: the last applied identifier is read only when the row count is
not zero; otherwise the variable keeps its initial value, the empty string. -/
def lastMigrationIdOf (appliedMigrations : Nat) (lastRow : List Char) : List Char :=
  if appliedMigrations ≠ 0 then lastRow else []

/-- The loop of lines 177-195. `migrations` is the set in iteration order, `iter`
the position of the iterator in it, `i` and `count` the two `unsigned int`
variables. The result is the set left when the loop is over; `none` stands for a
run that does not reach the end within `fuel` iterations or dereferences the end
iterator. -/
def filterLoop (lastMigrationId : List Char) :
    Nat → List (List Char) → Nat → Nat → Nat → Bool → Option (List (List Char))
  | 0, _, _, _, _, _ => none
  | fuel + 1, migrations, iter, i, count, filtered =>
    if i < migrations.length then
      -- `filtered && --count == 0`: the decrement happens only when `filtered` holds
      let count1 := if filtered then (count + 4294967295) % 4294967296 else count
      if filtered && count1 == 0 then
        -- `migrations.erase(++iter, migrations.end()); break;`
        some (migrations.take (iter + 1))
      else
        match migrations.get? iter with
        | none => none
        | some entry =>
          if !filtered && lastMigrationId == migrationId entry then
            -- `filtered = true; migrations.erase(migrations.begin(), ++iter); continue;`
            filterLoop lastMigrationId fuel (migrations.drop (iter + 1)) 0
              ((i + 1) % 4294967296) count1 true
          else
            -- `++iter;`
            filterLoop lastMigrationId fuel migrations (iter + 1)
              ((i + 1) % 4294967296) count1 filtered
    else some migrations

/-- Lines 155-195 of `migrateUp`: the set of migrations that is left after the
filter loop, for the last applied identifier, the requested `count` and the
directory entries in ascending order. The loop is given one more unit of fuel
than there are entries: `i` grows with every iteration and the set never does. -/
def migrateUpPlan (lastMigrationId : List Char) (count : Nat)
    (migrations : List (List Char)) : Option (List (List Char)) :=
  let filtered : Bool := lastMigrationId == []
  let count := if count == 0 then migrations.length % 4294967296 else count
  filterLoop lastMigrationId (migrations.length + 1) migrations 0 0 count filtered

/-- Lines 196-200: the message `No migrations available` is printed, and the
function returns, when the set that is left is empty. -/
def noMigrationsAvailable (plan : List (List Char)) : Bool := plan.length == 0

/-! ## Reading a migration file -/

/-- The lines that successive calls of `std::getline` return for a file with the
given content: the pieces between the newline characters. The call that returns
the last piece is the one that meets the end of the file and sets `eofbit`, so in
the loops below `file.eof()` holds exactly when no piece is left. -/
def fileLines : List Char → List (List Char)
  | [] => [[]]
  | c :: cs =>
    if c = '\n' then [] :: fileLines cs
    else
      match fileLines cs with
      | [] => [[c]]
      | line :: rest => (c :: line) :: rest

/-- The marker searched for by `migrateUp` (line 239). -/
def upMarker : List Char := "-- UP".toList

/-- The marker searched for by `migrateDown` (line 365) and closing the block of
`migrateUp` (line 258). -/
def downMarker : List Char := "-- DOWN".toList

/-- Lines 237-247 and 363-373: read lines until one contains the marker, then
test `file.eof()`. The result is the unread rest of the file, or `none` when the
block is reported as not found. -/
def searchBlock (marker : List Char) : List (List Char) → Option (List (List Char))
  | [] => none
  | line :: rest =>
    if containsStr line marker then
      (if rest.isEmpty then none else some rest)
    else searchBlock marker rest

/-! ## The `DELIMITER` control line (lines 268-273) -/

/-- The nine bracket expressions `[D|d][E|e][L|l][I|i][M|m][I|i][T|t][E|e][R|r]`:
each accepts its capital letter, the bar and its small letter. -/
def delimiterKeyword : List (Char × Char) :=
  [('D', 'd'), ('E', 'e'), ('L', 'l'), ('I', 'i'), ('M', 'm'), ('I', 'i'),
   ('T', 't'), ('E', 'e'), ('R', 'r')]

/-- Match the bracket expressions one after the other at the start of the text;
the result is the text after them. -/
def matchKeyword : List (Char × Char) → List Char → Option (List Char)
  | [], s => some s
  | _ :: _, [] => none
  | (up, lo) :: ps, c :: cs =>
    if c = up ∨ c = '|' ∨ c = lo then matchKeyword ps cs else none

/-- A character accepted by `.`: any but the line terminators. -/
def regexDot (c : Char) : Bool := c != '\n' && c != '\r'

/-- Match of the whole expression `[D|d]...[R|r] (.*)$` at the start of the text:
the keyword, one space, then the capture group, which has to reach the end. -/
def regexAt (s : List Char) : Option (List Char) :=
  match matchKeyword delimiterKeyword s with
  | some (sp :: rest) => if sp = ' ' ∧ rest.all regexDot then some rest else none
  | _ => none

/-- The capture group of the leftmost match found by `std::regex_search`, or
`none` when there is no match (`cmatch.size() != 2`). -/
def regexSearch : List Char → Option (List Char)
  | [] => regexAt []
  | c :: cs =>
    match regexAt (c :: cs) with
    | some capture => some capture
    | none => regexSearch cs

/-- The characters seen through `line.c_str()`: those before the first NUL. -/
def cStr (line : List Char) : List Char := line.takeWhile (· != Char.ofNat 0)

/-! ## Preparing the statements -/

/-- The double quote character. -/
def dquote : Char := Char.ofNat 34

/-- Line 251: the statement recording the migration as applied. -/
def insertQuery (migrationId : List Char) : List Char :=
  "INSERT INTO `migrations` VALUES (".toList ++ dquote :: migrationId ++ dquote :: ");".toList

/-- Line 388: the statement removing the record of the migration. -/
def deleteQuery (migrationId : List Char) : List Char :=
  "DELETE FROM `migrations` WHERE `id` = ".toList ++ dquote :: migrationId ++ dquote :: ";".toList

/-- The loop of lines 279-283: find the delimiter from `startPos` on, replace it
by `;`, go on one position after the start of the replacement. `none` stands for
a run that has not left the loop after `fuel` searches. -/
def replaceLoop (delimiter : List Char) : Nat → List Char → Nat → Option (List Char)
  | 0, _, _ => none
  | fuel + 1, sqlQuery, startPos =>
    match findFrom delimiter sqlQuery startPos with
    | none => some sqlQuery
    | some p =>
      replaceLoop delimiter fuel
        (sqlQuery.take p ++ ';' :: sqlQuery.drop (p + delimiter.length)) (p + 1)

/-- Lines 279-283 with the fuel that a loop which ends needs at most: one search
per position of the text and one more. -/
def replaceDelimiter (delimiter sqlQuery : List Char) : Option (List Char) :=
  replaceLoop delimiter (sqlQuery.length + 1) sqlQuery 0

/-- The loop of lines 254-288 over the unread lines: the statements of the UP
block in source order and the delimiter that is active when the loop is left.
`none` when a replacement loop is not left. -/
def upLoop : List (List Char) → List Char → List Char → List (List Char) →
    Option (List (List Char) × List Char)
  | [], delimiter, _, sqlQueries => some (sqlQueries, delimiter)
  | line :: rest, delimiter, sqlQuery, sqlQueries =>
    if containsStr line downMarker then some (sqlQueries, delimiter)
    else if line = [] then upLoop rest delimiter sqlQuery sqlQueries
    else
      match regexSearch (cStr line) with
      | some capture => upLoop rest capture sqlQuery sqlQueries
      | none =>
        let sqlQuery := sqlQuery ++ line ++ ['\n']
        if containsStr line delimiter then
          match replaceDelimiter delimiter sqlQuery with
          | none => none
          | some replaced => upLoop rest delimiter [] (sqlQueries ++ [replaced])
        else upLoop rest delimiter sqlQuery sqlQueries

/-- What the preparation of one migration file of `migrateUp` gives. -/
inductive Prepared where
  /-- The message `up block not found`. -/
  | blockNotFound
  /-- A replacement loop that is never left. -/
  | noReturn
  /-- The list `sqlQueries` and the value of `delimiter` after the file. -/
  | queries (sqlQueries : List (List Char)) (delimiter : List Char)
  deriving DecidableEq

/-- Lines 234-288 for one file: the search for the UP block, then the statement
list, which starts with the insert into the tracking table. -/
def prepareUp (migrationId delimiter : List Char) (lines : List (List Char)) : Prepared :=
  match searchBlock upMarker lines with
  | none => .blockNotFound
  | some rest =>
    match upLoop rest delimiter [] [insertQuery migrationId] with
    | none => .noReturn
    | some (sqlQueries, delimiter1) => .queries sqlQueries delimiter1

/-- The loop of lines 378-387 over the unread lines: every line is added to the
pending text, which is pushed when the line contains `;`. -/
def downLoop : List (List Char) → List Char → List (List Char) → List (List Char)
  | [], _, sqlQueries => sqlQueries
  | tmp :: rest, sqlQuery, sqlQueries =>
    let sqlQuery := sqlQuery ++ tmp ++ ['\n']
    if containsStr tmp [';'] then downLoop rest [] (sqlQueries ++ [sqlQuery])
    else downLoop rest sqlQuery sqlQueries

/-- Lines 361-388 for one file: the search for the DOWN block, then the statement
list, which ends with the delete from the tracking table; `none` is the message
`down block not found!`. -/
def prepareDown (migrationId : List Char) (lines : List (List Char)) :
    Option (List (List Char)) :=
  match searchBlock downMarker lines with
  | none => none
  | some rest => some (downLoop rest [] [] ++ [deleteQuery migrationId])

/-- A `size_t` result of `find`: `npos` is the largest value. -/
def sizeT (pos : Option Nat) : Nat :=
  match pos with
  | some p => p
  | none => 18446744073709551615

/-- Line 350: `migration.substr(migration.find("/") + 1,
migration.find(".") - migration.find("/") - 1)`, in `size_t` arithmetic. -/
def downMigrationId (migration : List Char) : List Char :=
  let slash := sizeT (find ['/'] migration)
  let dot := sizeT (find ['.'] migration)
  (migration.drop ((slash + 1) % 18446744073709551616)).take
    ((dot + 18446744073709551616 - slash + 18446744073709551615) % 18446744073709551616)

/-- Line 322: the path built from a row of the tracking table. -/
def downPath (id : List Char) : List Char :=
  "migrations/".toList ++ id ++ ".sql".toList

/-! ## Execution -/

/-- How a run over the planned migrations ends. -/
inductive Outcome (ε : Type) where
  /-- Every statement of every planned migration was executed. -/
  | allDone
  /-- The message `failed to open file!`. -/
  | failedToOpen (migrationId : List Char)
  /-- The message `up block not found` or `down block not found!`. -/
  | blockNotFound (migrationId : List Char)
  /-- The database rejected the statement with the given error. -/
  | failed (sqlQuery : List Char) (error : ε)
  /-- A replacement loop that is never left. -/
  | noReturn
  deriving DecidableEq

/-- The result of a run: the database state, the statements handed to the
database in order, each with whether it was accepted, and the outcome. -/
structure Run (σ ε : Type) where
  db : σ
  executed : List (List Char × Bool)
  outcome : Outcome ε
  deriving DecidableEq

/-- Lines 291-304 and 391-404: execute the statements in order; return at the
first one the database rejects. `execute` gives the state after the statement and
the error when the statement is rejected. -/
def applyQueries {σ ε : Type} (execute : σ → List Char → σ × Option ε) :
    σ → List (List Char) → Run σ ε
  | db, [] => ⟨db, [], .allDone⟩
  | db, sqlQuery :: rest =>
    match execute db sqlQuery with
    | (db1, some error) => ⟨db1, [(sqlQuery, false)], .failed sqlQuery error⟩
    | (db1, none) =>
      let r := applyQueries execute db1 rest
      ⟨r.db, (sqlQuery, true) :: r.executed, r.outcome⟩

/-- The loop of lines 220-307 over the planned directory entries, from the given
value of `delimiter` and database state. `readFile` gives the content of the
file at a path, `none` when it cannot be opened. -/
def migrateUpApply {σ ε : Type} (readFile : List Char → Option (List Char))
    (execute : σ → List Char → σ × Option ε) :
    List (List Char) → List Char → σ → Run σ ε
  | [], _, db => ⟨db, [], .allDone⟩
  | migration :: rest, delimiter, db =>
    match readFile ("migrations/".toList ++ migration) with
    | none => ⟨db, [], .failedToOpen (migrationId migration)⟩
    | some text =>
      match prepareUp (migrationId migration) delimiter (fileLines text) with
      | .blockNotFound => ⟨db, [], .blockNotFound (migrationId migration)⟩
      | .noReturn => ⟨db, [], .noReturn⟩
      | .queries sqlQueries delimiter1 =>
        let r := applyQueries execute db sqlQueries
        match r.outcome with
        | .allDone =>
          let r2 := migrateUpApply readFile execute rest delimiter1 r.db
          ⟨r2.db, r.executed ++ r2.executed, r2.outcome⟩
        | _ => r

/-- The loop of lines 349-406 over the paths built from the rows of the
tracking table. -/
def migrateDownApply {σ ε : Type} (readFile : List Char → Option (List Char))
    (execute : σ → List Char → σ × Option ε) :
    List (List Char) → σ → Run σ ε
  | [], db => ⟨db, [], .allDone⟩
  | migration :: rest, db =>
    match readFile migration with
    | none => ⟨db, [], .failedToOpen (downMigrationId migration)⟩
    | some text =>
      match prepareDown (downMigrationId migration) (fileLines text) with
      | none => ⟨db, [], .blockNotFound (downMigrationId migration)⟩
      | some sqlQueries =>
        let r := applyQueries execute db sqlQueries
        match r.outcome with
        | .allDone =>
          let r2 := migrateDownApply readFile execute rest r.db
          ⟨r2.db, r.executed ++ r2.executed, r2.outcome⟩
        | _ => r


/-! ## Reference notions used to state the claims -/

/-- The statements of the planned files of an up run, in plan order and in the
order of each file, up to the first file that cannot be opened or prepared. -/
def upStatements (readFile : List Char → Option (List Char)) :
    List (List Char) → List Char → List (List Char)
  | [], _ => []
  | migration :: rest, delimiter =>
    match readFile ("migrations/".toList ++ migration) with
    | none => []
    | some text =>
      match prepareUp (migrationId migration) delimiter (fileLines text) with
      | .queries sqlQueries delimiter1 => sqlQueries ++ upStatements readFile rest delimiter1
      | _ => []

/-- The statements of the planned files of a down run, in plan order and in the
order of each file, up to the first file that cannot be opened or prepared. -/
def downStatements (readFile : List Char → Option (List Char)) :
    List (List Char) → List (List Char)
  | [] => []
  | migration :: rest =>
    match readFile migration with
    | none => []
    | some text =>
      match prepareDown (downMigrationId migration) (fileLines text) with
      | some sqlQueries => sqlQueries ++ downStatements readFile rest
      | none => []

/-- The database state after the statements were handed to it one after the
other. -/
def stateAfter {σ ε : Type} (execute : σ → List Char → σ × Option ε) (db : σ)
    (sqlQueries : List (List Char)) : σ :=
  sqlQueries.foldl (fun s q => (execute s q).1) db

/-- A record of executed statements is sequential from the state `db`: each
statement was handed to the database in the state left by the ones before it,
its flag is the verdict of the database, and nothing follows a rejected one. -/
def Sequential {σ ε : Type} (execute : σ → List Char → σ × Option ε) :
    σ → List (List Char × Bool) → Prop
  | _, [] => True
  | db, (sqlQuery, accepted) :: rest =>
    accepted = (execute db sqlQuery).2.isNone ∧ (accepted = false → rest = []) ∧
      Sequential execute (execute db sqlQuery).1 rest

/-- The lines one after the other, each followed by a newline. -/
def joinLines : List (List Char) → List Char
  | [] => []
  | line :: rest => line ++ '\n' :: joinLines rest

/-- The text with every occurrence of `d`, found from left to right, replaced by
`;` and every other character kept; `skip` counts the characters of the
occurrence being replaced that are still to be left out. -/
def replaceAll (d : List Char) : Nat → List Char → List Char
  | _, [] => []
  | skip + 1, _ :: cs => replaceAll d skip cs
  | 0, c :: cs =>
    if d.isPrefixOf (c :: cs) then ';' :: replaceAll d (d.length - 1) cs
    else c :: replaceAll d 0 cs

/-! ## Example files and databases -/

/-- A directory holding the one file `migrations/m20240101_000000.sql` with the
given content. -/
def oneFile (content : List Char) (path : List Char) : Option (List Char) :=
  if path = "migrations/m20240101_000000.sql".toList then some content else none

/-- A database that accepts every statement; its state is not looked at. -/
def acceptAll (db : Unit) (_sqlQuery : List Char) : Unit × Option Unit := (db, none)

/-- A database of which only the tracking table is modelled, as the list of its
rows. The insert of line 251 adds its row unless the key is there already, the
delete of line 388 removes its row, and any other statement leaves the table as
it is and is accepted when `accepts` says so. -/
def trackingExecute (accepts : List Char → Bool) (db : List (List Char))
    (sqlQuery : List Char) : List (List Char) × Option Unit :=
  let insertHead := "INSERT INTO `migrations` VALUES (".toList ++ [dquote]
  let insertTail := dquote :: ");".toList
  let deleteHead := "DELETE FROM `migrations` WHERE `id` = ".toList ++ [dquote]
  let deleteTail := dquote :: ";".toList
  if insertHead.isPrefixOf sqlQuery ∧ insertTail.isSuffixOf sqlQuery then
    let id := (sqlQuery.drop insertHead.length).take
      (sqlQuery.length - insertHead.length - insertTail.length)
    if id ∈ db then (db, some ()) else (id :: db, none)
  else if deleteHead.isPrefixOf sqlQuery ∧ deleteTail.isSuffixOf sqlQuery then
    let id := (sqlQuery.drop deleteHead.length).take
      (sqlQuery.length - deleteHead.length - deleteTail.length)
    (db.filter (· != id), none)
  else if accepts sqlQuery then (db, none) else (db, some ())

/-- A directory holding the two files `migrations/m20240101_000000.sql` and
`migrations/m20240102_000000.sql` with the given contents. -/
def twoFiles (first second : List Char) (path : List Char) : Option (List Char) :=
  if path = "migrations/m20240101_000000.sql".toList then some first
  else if path = "migrations/m20240102_000000.sql".toList then some second
  else none


/-! ## Creating a migration (lines 109-134) -/

/-- Lines 128-129: the text written into a new migration file. -/
def createMigrationTemplate : List Char := "-- UP\n\n".toList ++ "-- DOWN\n\n".toList

/-! ## Reference notions for the end of a block -/

/-- No line of the list completes a statement of the UP block when the list is
read with the delimiter `d` active at its first line: every line is blank, or a
control line, after which the delimiter it sets is the active one, or a line
of statement text without the active delimiter. No line holds the DOWN marker. -/
def quietLines : List (List Char) → List Char → Bool
  | [], _ => true
  | line :: rest, d =>
    if containsStr line downMarker then false
    else if line = [] then quietLines rest d
    else
      match regexSearch (cStr line) with
      | some capture => quietLines rest capture
      | none => !containsStr line d && quietLines rest d

/-! ## The two commands (lines 136-409) -/

/-- The character of a digit below ten. -/
def digitChar (d : Nat) : Char := Char.ofNat (48 + d)

/-- The decimal digits of `n` put before `acc`; `fuel` bounds their number. -/
def decimalAux : Nat → Nat → List Char → List Char
  | 0, _, acc => acc
  | fuel + 1, n, acc =>
    if n < 10 then digitChar n :: acc
    else decimalAux fuel (n / 10) (digitChar (n % 10) :: acc)

/-- The result of `std::to_string` for a value that is not negative. -/
def decimal (n : Nat) : List Char := decimalAux (n + 1) n []

/-- Lines 519-521: the statement of `dbInit`, the raw string with its line
break. -/
def createTableQuery : List Char :=
  "CREATE TABLE IF NOT EXISTS `migrations` \n".toList
    ++ "(`id` varchar(64) NOT NULL PRIMARY KEY)".toList

/-- The database as the two commands use it. -/
structure Database (σ ε : Type) where
  /-- The call `SQL_STMT->execute`: the state after the statement and, when the
  statement is rejected, the error of the exception. -/
  execute : σ → List Char → σ × Option ε
  /-- The identifiers in the tracking table in descending order, the rows of
  `SELECT * FROM migrations ORDER BY id DESC`; `LIMIT n` gives the first `n` of
  them and `COUNT(*)` their number. -/
  rows : σ → List (List Char)

/-- How an invocation of `migrateUp` or `migrateDown` ends. -/
inductive Ending (ε : Type) where
  /-- The function `dbInit` returned false: settings missing or invalid, or no
  connection. Nothing was sent to the database. -/
  | initFailed
  /-- The database rejected the statement of `dbInit`; the exception is caught
  nowhere. -/
  | initThrew (error : ε)
  /-- The filter loop of `migrateUp` has no defined result. -/
  | undefinedPlan
  /-- The message `No migrations available` or `No migrations find to revert`. -/
  | nothingToDo
  /-- The user answered `n` to the confirmation. -/
  | declined
  /-- The loop over the planned migrations was entered and ended so. -/
  | ran (outcome : Outcome ε)
  deriving DecidableEq

/-- The result of an invocation: the database state at its return, the statements
handed to `execute` in order with whether each was accepted, the text of the
confirmation when one was asked for, and the ending. -/
structure Session (σ ε : Type) where
  db : σ
  executed : List (List Char × Bool)
  prompt : Option (List Char)
  ending : Ending ε
  deriving DecidableEq

/-- Lines 203-211: the list of the applicable migrations and the question put to
the user. -/
def upPrompt (plan : List (List Char)) : List Char :=
  "\nApplicable migrations (".toList ++ decimal plan.length ++ " pcs.):\n".toList
    ++ (plan.map (fun migration => migrationId migration ++ ['\n'])).flatten
    ++ "\nApply above migrations?".toList

/-- Line 342: the question put to the user. -/
def downPrompt (totalMigrations count : Nat) : List Char :=
  decimal totalMigrations ++ " migration(s) applied. Revert ".toList ++ decimal count
    ++ " migration(s)?".toList

/-- The function `migrateUp` (lines 136-310). `connects` says whether `dbInit`
gets as far as the database, `catalog` is the content of the directory in
ascending order, `confirm` the answer of the user to a question. -/
def migrateUp {σ ε : Type} (D : Database σ ε) (connects : Bool)
    (catalog : List (List Char)) (readFile : List Char → Option (List Char))
    (confirm : List Char → Bool) (count : Nat) (db : σ) : Session σ ε :=
  if !connects then ⟨db, [], none, .initFailed⟩
  else
    match D.execute db createTableQuery with
    | (db1, some error) => ⟨db1, [(createTableQuery, false)], none, .initThrew error⟩
    | (db1, none) =>
      let appliedMigrations := (D.rows db1).length % 4294967296
      let lastMigrationId :=
        lastMigrationIdOf appliedMigrations (((D.rows db1).take 1).headD [])
      match migrateUpPlan lastMigrationId count catalog with
      | none => ⟨db1, [(createTableQuery, true)], none, .undefinedPlan⟩
      | some migrations =>
        if noMigrationsAvailable migrations then
          ⟨db1, [(createTableQuery, true)], none, .nothingToDo⟩
        else if !confirm (upPrompt migrations) then
          ⟨db1, [(createTableQuery, true)], some (upPrompt migrations), .declined⟩
        else
          let r := migrateUpApply readFile D.execute migrations [';'] db1
          ⟨r.db, (createTableQuery, true) :: r.executed, some (upPrompt migrations),
            .ran r.outcome⟩

/-- The function `migrateDown` (lines 312-409). -/
def migrateDown {σ ε : Type} (D : Database σ ε) (connects : Bool)
    (readFile : List Char → Option (List Char))
    (confirm : List Char → Bool) (count : Nat) (db : σ) : Session σ ε :=
  if !connects then ⟨db, [], none, .initFailed⟩
  else
    match D.execute db createTableQuery with
    | (db1, some error) => ⟨db1, [(createTableQuery, false)], none, .initThrew error⟩
    | (db1, none) =>
      let migrations := ((D.rows db1).take count).map downPath
      if migrations.length == 0 then
        ⟨db1, [(createTableQuery, true)], none, .nothingToDo⟩
      else
        let totalMigrations := (D.rows db1).length % 4294967296
        let count1 := if count > totalMigrations then totalMigrations else count
        if !confirm (downPrompt totalMigrations count1) then
          ⟨db1, [(createTableQuery, true)], some (downPrompt totalMigrations count1),
            .declined⟩
        else
          let r := migrateDownApply readFile D.execute migrations db1
          ⟨r.db, (createTableQuery, true) :: r.executed,
            some (downPrompt totalMigrations count1), .ran r.outcome⟩

/-- A database in which the tracking table may be missing (`none`): the statement
of `dbInit` creates it empty when it is missing, and the other statements act on
the table as in `trackingExecute`, all of them accepted, and are rejected while
there is no table. -/
def freshExecute (db : Option (List (List Char))) (sqlQuery : List Char) :
    Option (List (List Char)) × Option Unit :=
  if sqlQuery = createTableQuery then (some (db.getD []), none)
  else
    match db with
    | none => (none, some ())
    | some table =>
      (some (trackingExecute (fun _ => true) table sqlQuery).1,
        (trackingExecute (fun _ => true) table sqlQuery).2)

/-- The database of `freshExecute`; the rows are read in the order of the list. -/
def freshDatabase : Database (Option (List (List Char))) Unit :=
  ⟨freshExecute, fun db => db.getD []⟩

/-! ## The name of a new migration (lines 110-122) -/

/-- The fields of the broken-down local time as `createMigration` prints them:
`year` is `1900 + tm_year`, `month` is `tm_mon + 1`, the others are `tm_mday`,
`tm_hour`, `tm_min` and `tm_sec`. -/
structure LocalTime where
  year : Nat
  month : Nat
  day : Nat
  hour : Nat
  minute : Nat
  second : Nat
  deriving DecidableEq

/-- A time with a year of four digits and every field in its calendar range. -/
def LocalTime.wellFormed (t : LocalTime) : Bool :=
  decide (1000 ≤ t.year) && decide (t.year ≤ 9999)
    && decide (1 ≤ t.month) && decide (t.month ≤ 12)
    && decide (1 ≤ t.day) && decide (t.day ≤ 31)
    && decide (t.hour ≤ 23) && decide (t.minute ≤ 59) && decide (t.second ≤ 60)

/-- The time `a` is before the time `b`: the fields are compared from the year
down to the second. -/
def LocalTime.before (a b : LocalTime) : Bool :=
  if a.year < b.year then true else if b.year < a.year then false
  else if a.month < b.month then true else if b.month < a.month then false
  else if a.day < b.day then true else if b.day < a.day then false
  else if a.hour < b.hour then true else if b.hour < a.hour then false
  else if a.minute < b.minute then true else if b.minute < a.minute then false
  else if a.second < b.second then true else false

/-- The result of `sprintf` with the format `%02d` for a value that is not
negative: at least two digits, a `0` put before a single one. -/
def pad2 (v : Nat) : List Char := if v < 10 then ['0', digitChar v] else decimal v

/-- Lines 115-122: the file name made from the local time. -/
def createMigrationFilename (t : LocalTime) : List Char :=
  "m".toList ++ decimal t.year ++ pad2 t.month ++ pad2 t.day ++ "_".toList
    ++ pad2 t.hour ++ pad2 t.minute ++ pad2 t.second ++ ".sql".toList

/-- The two digits of a value below one hundred. -/
def twoDigits (v : Nat) : List Char := [digitChar (v / 10), digitChar (v % 10)]

/-- The database of `trackingExecute` that accepts every other statement: the
state is the tracking table, its rows newest first. -/
def trackingDatabase : Database (List (List Char)) Unit :=
  ⟨trackingExecute (fun _ => true), fun db => db⟩

/-- A directory given by its files, each a path with its content. -/
def directory (files : List (List Char × List Char)) (path : List Char) :
    Option (List Char) :=
  (files.find? (fun f => f.1 == path)).map Prod.snd

/-- A directory of three migration files of which the second has no UP marker. -/
def missingUpDirectory : List Char → Option (List Char) :=
  directory
    [("migrations/m20240101_000000.sql".toList,
      "-- UP
CREATE TABLE t(x INT);
-- DOWN
DROP TABLE t;
".toList),
     ("migrations/m20240102_000000.sql".toList, "-- DOWN
DROP TABLE u;
".toList),
     ("migrations/m20240103_000000.sql".toList,
      "-- UP
CREATE TABLE v(z INT);
-- DOWN
DROP TABLE v;
".toList)]

/-- A directory of three migration files of which the second has no DOWN
marker. -/
def missingDownDirectory : List Char → Option (List Char) :=
  directory
    [("migrations/m20240101_000000.sql".toList,
      "-- UP
CREATE TABLE t(x INT);
-- DOWN
DROP TABLE t;
".toList),
     ("migrations/m20240102_000000.sql".toList, "-- UP
CREATE TABLE u(y INT);
".toList),
     ("migrations/m20240103_000000.sql".toList,
      "-- UP
CREATE TABLE v(z INT);
-- DOWN
DROP TABLE v;
".toList)]

/-! ## Facts about the filter loop -/

theorem filterLoop_filtered (last : List Char) :
    ∀ (fuel : Nat) (migs : List (List Char)) (t i c : Nat),
      migs.length < 4294967296 → 0 < c → c < 4294967296 → t ≤ i →
      migs.length - i + 1 ≤ fuel →
      filterLoop last fuel migs t i c true
        = some (if c ≤ migs.length - i then migs.take (t + c) else migs) := by
  intro fuel
  induction fuel with
  | zero => intro migs t i c _ _ _ _ hf; omega
  | succ fuel ih =>
    intro migs t i c hlen hc0 hc ht hf
    rw [filterLoop]
    by_cases hi : i < migs.length
    · have hc1 : (c + 4294967295) % 4294967296 = c - 1 := by omega
      have hi1 : (i + 1) % 4294967296 = i + 1 := by omega
      simp only [hi, if_true, hc1, hi1]
      by_cases h1 : c = 1
      · subst h1
        have : (1 : Nat) ≤ migs.length - i := by omega
        simp [this]
      · have hc2 : ¬ (c - 1 = 0) := by omega
        have hget : migs.get? t = some (migs.get ⟨t, by omega⟩) := List.get?_eq_get (by omega)
        simp only [Bool.true_and, beq_iff_eq, hc2, if_false, hget, Bool.not_true, Bool.false_and]
        rw [ih migs (t + 1) (i + 1) (c - 1) hlen (by omega) (by omega) (by omega) (by omega)]
        have e1 : t + 1 + (c - 1) = t + c := by omega
        rw [e1]
        by_cases h3 : c ≤ migs.length - i
        · have : c - 1 ≤ migs.length - (i + 1) := by omega
          simp [h3, this]
        · have : ¬ (c - 1 ≤ migs.length - (i + 1)) := by omega
          simp [h3, this]
    · have : ¬ (c ≤ migs.length - i) := by omega
      simp [hi, this]

theorem get?_append_cons (pre : List (List Char)) (e : List Char) (rest : List (List Char)) :
    (pre ++ e :: rest).get? pre.length = some e := by
  induction pre with
  | nil => rfl
  | cons p pre ih => simpa using ih

theorem filterLoop_unfiltered_none (last : List Char) :
    ∀ (rest pre : List (List Char)) (fuel c : Nat),
      (pre ++ rest).length < 4294967296 →
      (∀ f ∈ rest, last ≠ migrationId f) →
      rest.length + 1 ≤ fuel →
      filterLoop last fuel (pre ++ rest) pre.length pre.length c false
        = some (pre ++ rest) := by
  intro rest
  induction rest with
  | nil =>
    intro pre fuel c _ _ hf
    obtain ⟨fuel, rfl⟩ : ∃ k, fuel = k + 1 := ⟨fuel - 1, by simp at hf; omega⟩
    rw [filterLoop]
    simp
  | cons e rest ih =>
    intro pre fuel c hlen hne hf
    obtain ⟨fuel, rfl⟩ : ∃ k, fuel = k + 1 := ⟨fuel - 1, by simp at hf; omega⟩
    rw [filterLoop]
    have hlen2 : pre.length + (rest.length + 1) < 4294967296 := by simpa using hlen
    have hi : pre.length < (pre ++ e :: rest).length := by simp
    have hi1 : (pre.length + 1) % 4294967296 = pre.length + 1 := by omega
    have hget : (pre ++ e :: rest).get? pre.length = some e := get?_append_cons pre e rest
    have hid : (last == migrationId e) = false := by
      simpa using hne e (List.mem_cons_self _ _)
    simp only [hi, if_true, hi1, hget, Bool.false_and, hid, Bool.and_false,
      Bool.false_eq_true, if_false]
    have e1 : pre ++ e :: rest = (pre ++ [e]) ++ rest := by simp
    have e2 : pre.length + 1 = (pre ++ [e]).length := by simp
    rw [e1, e2]
    apply ih
    · simpa using hlen
    · intro f hf2; exact hne f (List.mem_cons_of_mem _ hf2)
    · simp at hf; omega

theorem filterLoop_unfiltered_match (last : List Char) :
    ∀ (mid pre : List (List Char)) (e : List Char) (post : List (List Char))
      (fuel c : Nat),
      (pre ++ (mid ++ e :: post)).length < 4294967296 →
      (∀ f ∈ mid, last ≠ migrationId f) →
      last = migrationId e →
      filterLoop last (mid.length + 1 + fuel) (pre ++ (mid ++ e :: post))
          pre.length pre.length c false
        = filterLoop last fuel post 0 (pre.length + mid.length + 1) c true := by
  intro mid
  induction mid with
  | nil =>
    intro pre e post fuel c hlen _ hid
    have e0 : ([] : List (List Char)).length + 1 + fuel = fuel + 1 := by simp; omega
    rw [e0, filterLoop]
    have hlen2 : pre.length + (post.length + 1) < 4294967296 := by simpa using hlen
    have hi : pre.length < (pre ++ ([] ++ e :: post)).length := by simp
    have hi1 : (pre.length + 1) % 4294967296 = pre.length + 1 := by omega
    have hget : (pre ++ ([] ++ e :: post)).get? pre.length = some e :=
      get?_append_cons pre e post
    have hb : (last == migrationId e) = true := by simp [hid]
    simp only [hi, if_true, hi1, hget, Bool.false_and, hb, Bool.not_false, Bool.and_true,
      Bool.false_eq_true, if_false]
    simp
  | cons m mid ih =>
    intro pre e post fuel c hlen hne hid
    have e0 : (m :: mid).length + 1 + fuel = (mid.length + 1 + fuel) + 1 := by simp; omega
    rw [e0, filterLoop]
    have hlen2 : pre.length + (mid.length + (post.length + 1) + 1) < 4294967296 := by
      simpa using hlen
    have hi : pre.length < (pre ++ (m :: mid ++ e :: post)).length := by simp
    have hi1 : (pre.length + 1) % 4294967296 = pre.length + 1 := by omega
    have hget : (pre ++ (m :: mid ++ e :: post)).get? pre.length = some m :=
      get?_append_cons pre m (mid ++ e :: post)
    have hb : (last == migrationId m) = false := by
      simpa using hne m (List.mem_cons_self _ _)
    simp only [hi, if_true, hi1, hget, Bool.false_and, hb, Bool.and_false,
      Bool.false_eq_true, if_false]
    have e1 : pre ++ (m :: mid ++ e :: post) = (pre ++ [m]) ++ (mid ++ e :: post) := by simp
    have e2 : pre.length + 1 = (pre ++ [m]).length := by simp
    have h := ih (pre ++ [m]) e post fuel c (by rw [← e1]; exact hlen)
      (fun f hf2 => hne f (List.mem_cons_of_mem _ hf2)) hid
    rw [e1, e2, h]
    congr 1
    simp only [List.length_append, List.length_cons, List.length_nil]
    omega

/-- What the filter loop leaves when the last applied identifier is the one of
the entry `e`: the entries after `e`, cut to the first `count` of them only when
`count` is at most their number less the position after `e`. -/
theorem migrateUpPlan_after_last (last : List Char) (count : Nat)
    (mid : List (List Char)) (e : List Char) (post : List (List Char))
    (hlen : (mid ++ e :: post).length < 4294967296) (hcount : count < 4294967296)
    (hlast : last ≠ [])
    (hmid : ∀ f ∈ mid, last ≠ migrationId f) (hid : last = migrationId e) :
    migrateUpPlan last count (mid ++ e :: post)
      = some (if count ≠ 0 ∧ count ≤ post.length - (mid.length + 1)
          then post.take count else post) := by
  unfold migrateUpPlan
  have hf : (last == []) = false := by simpa using hlast
  have hlen2 : mid.length + (post.length + 1) < 4294967296 := by simpa using hlen
  have efuel : (mid ++ e :: post).length + 1 = mid.length + 1 + (post.length + 1) := by
    simp; omega
  have h := filterLoop_unfiltered_match last mid [] e post (post.length + 1)
    (if (count == 0) = true then (mid ++ e :: post).length % 4294967296 else count)
    (by simpa using hlen) hmid hid
  simp only [List.nil_append, List.length_nil, Nat.zero_add] at h
  simp only [hf, efuel]
  rw [h]
  by_cases hc0 : count = 0
  · subst hc0
    have hmod : (mid ++ e :: post).length % 4294967296 = mid.length + (post.length + 1) := by
      simp; omega
    simp only [beq_self_eq_true, if_true, hmod]
    rw [filterLoop_filtered last _ post 0 _ _ (by omega) (by omega) (by omega) (by omega)
      (by omega)]
    have : ¬ (mid.length + (post.length + 1) ≤ post.length - (mid.length + 1)) := by omega
    simp [this]
  · have hb : (count == 0) = false := by simpa using hc0
    simp only [hb, Bool.false_eq_true, if_false]
    rw [filterLoop_filtered last _ post 0 _ _ (by omega) (by omega) (by omega) (by omega)
      (by omega)]
    simp [hc0]

/-! ## Facts about the order of identifiers -/

theorem strLess_irrefl : ∀ a : List Char, strLess a a = false
  | [] => rfl
  | c :: cs => by simp [strLess, strLess_irrefl cs]

theorem strLess_asymm : ∀ a b : List Char, strLess a b = true → strLess b a = false
  | [], [], _ => rfl
  | [], _ :: _, _ => rfl
  | _ :: _, [], h => by simp [strLess] at h
  | a :: as, b :: bs, h => by
    rw [strLess] at h
    rw [strLess]
    by_cases h1 : a.toNat < b.toNat
    · have h2 : ¬ b.toNat < a.toNat := by omega
      simp [h1, h2]
    · by_cases h2 : b.toNat < a.toNat
      · simp [h1, h2] at h
      · simp only [h1, h2, if_false] at h
        simp [h1, h2, strLess_asymm as bs h]

/-- The entries with an identifier above the one of `e`, in a list ascending by
identifier, are the entries after `e`. -/
theorem filter_above (mid : List (List Char)) (e : List Char) (post : List (List Char))
    (hs : (mid ++ e :: post).Pairwise
      (fun a b => strLess (migrationId a) (migrationId b) = true)) :
    (mid ++ e :: post).filter (fun f => strLess (migrationId e) (migrationId f)) = post := by
  rw [List.pairwise_append] at hs
  obtain ⟨_, hpost, hcross⟩ := hs
  rw [List.pairwise_cons] at hpost
  rw [List.filter_append, List.filter_cons]
  have h1 : mid.filter (fun f => strLess (migrationId e) (migrationId f)) = [] := by
    rw [List.filter_eq_nil_iff]
    intro f hf
    have := hcross f hf e (List.mem_cons_self _ _)
    simp [strLess_asymm _ _ this]
  have h2 : post.filter (fun f => strLess (migrationId e) (migrationId f)) = post := by
    rw [List.filter_eq_self]
    intro f hf
    exact hpost.1 f hf
  simp [h1, h2, strLess_irrefl]

/-! ## Claims on the plan of `up` -/

/-- C1: with no applied record in the tracking table, the plan of `migrateUp` for
a catalog of N entries is the whole catalog when the requested count is 0 and its
first min(count, N) entries otherwise; being a prefix of the catalog it is
ascending by identifier whenever the catalog is. -/
theorem migrateUp_plan_none_applied (catalog : List (List Char)) (count : Nat)
    (lastRow : List Char)
    (hlen : catalog.length < 4294967296) (hcount : count < 4294967296) :
    migrateUpPlan (lastMigrationIdOf 0 lastRow) count catalog
      = some (if count = 0 then catalog else catalog.take (min count catalog.length))
    ∧ (catalog.Pairwise (fun a b => strLess (migrationId a) (migrationId b) = true) →
        (if count = 0 then catalog else catalog.take (min count catalog.length)).Pairwise
          (fun a b => strLess (migrationId a) (migrationId b) = true)) := by
  constructor
  · unfold migrateUpPlan lastMigrationIdOf
    simp only [ne_eq, not_true_eq_false, if_false, beq_self_eq_true]
    by_cases hnil : catalog.length = 0
    · have : catalog = [] := List.length_eq_zero.mp hnil
      subst this
      by_cases hc : count = 0 <;> simp [filterLoop, hc]
    · have hmod : catalog.length % 4294967296 = catalog.length := by omega
      by_cases hc : count = 0
      · subst hc
        simp only [beq_self_eq_true, if_true, hmod]
        rw [filterLoop_filtered _ _ catalog 0 0 _ hlen (by omega) hlen (by omega) (by omega)]
        simp
      · have hb : (count == 0) = false := by simpa using hc
        simp only [hb, Bool.false_eq_true, if_false, hc]
        rw [filterLoop_filtered _ _ catalog 0 0 _ hlen (by omega) hcount (by omega) (by omega)]
        by_cases hle : count ≤ catalog.length
        · simp [hle, Nat.min_eq_left hle]
        · have : catalog.length ≤ count := by omega
          simp [hle, Nat.min_eq_right this]
  · intro hs
    by_cases hc : count = 0
    · simpa [hc] using hs
    · simp only [hc, if_false]
      exact hs.sublist (List.take_sublist _ _)

/-- C3: when the last applied identifier is the one of a catalog entry, the plan
of `migrateUp` for the count 0 is the list of the entries whose identifier is
above it, all of them and in catalog order, hence ascending by identifier; no
migration is reported available exactly when no entry has such an identifier.
The catalog is ascending by identifier and no identifier in it is the empty
string, by which the code represents an empty tracking table. -/
theorem migrateUp_plan_all_pending (catalog : List (List Char))
    (appliedMigrations : Nat) (lastRow : List Char)
    (hlen : catalog.length < 4294967296)
    (hs : catalog.Pairwise (fun a b => strLess (migrationId a) (migrationId b) = true))
    (hids : ∀ f ∈ catalog, migrationId f ≠ [])
    (happlied : appliedMigrations ≠ 0)
    (hmem : lastRow ∈ catalog.map migrationId) :
    migrateUpPlan (lastMigrationIdOf appliedMigrations lastRow) 0 catalog
      = some (catalog.filter (fun f => strLess lastRow (migrationId f)))
    ∧ (catalog.filter (fun f => strLess lastRow (migrationId f))).Pairwise
        (fun a b => strLess (migrationId a) (migrationId b) = true)
    ∧ (noMigrationsAvailable (catalog.filter (fun f => strLess lastRow (migrationId f))) = true
        ↔ ∀ f ∈ catalog, strLess lastRow (migrationId f) = false) := by
  refine ⟨?_, hs.sublist (List.filter_sublist _), ?_⟩
  · obtain ⟨e, he, hid⟩ := List.mem_map.mp hmem
    have hrow : lastRow ≠ [] := by rw [← hid]; exact hids e he
    obtain ⟨mid, post, rfl⟩ := List.append_of_mem he
    have hmid : ∀ f ∈ mid, lastRow ≠ migrationId f := by
      intro f hf heq
      have h1 := (List.pairwise_append.mp hs).2.2 f hf e (List.mem_cons_self _ _)
      rw [hid, ← heq, strLess_irrefl] at h1
      exact Bool.false_ne_true h1
    have hl : lastMigrationIdOf appliedMigrations lastRow = lastRow := by
      simp [lastMigrationIdOf, happlied]
    rw [hl, migrateUpPlan_after_last lastRow 0 mid e post hlen (by omega) hrow hmid hid.symm,
      ← hid, filter_above mid e post hs]
    simp
  · simp only [noMigrationsAvailable, beq_iff_eq, List.length_eq_zero, List.filter_eq_nil_iff]
    constructor
    · intro h f hf
      simpa using h f hf
    · intro h f hf
      simp [h f hf]

theorem migrateUp_plan_all_pending_witness :
    migrateUpPlan (lastMigrationIdOf 2 "m20240102_000000".toList) 0
        ["m20240101_000000.sql".toList, "m20240102_000000.sql".toList,
         "m20240103_000000.sql".toList, "m20240104_000000.sql".toList]
      = some (["m20240101_000000.sql".toList, "m20240102_000000.sql".toList,
         "m20240103_000000.sql".toList, "m20240104_000000.sql".toList].filter
          (fun f => strLess "m20240102_000000".toList (migrationId f))) :=
  (migrateUp_plan_all_pending
    ["m20240101_000000.sql".toList, "m20240102_000000.sql".toList,
     "m20240103_000000.sql".toList, "m20240104_000000.sql".toList]
    2 "m20240102_000000".toList (by decide) (by decide) (by decide) (by decide) (by decide)).1

theorem migrateUp_plan_none_applied_witness :
    migrateUpPlan (lastMigrationIdOf 0 []) 2
        ["m20240101_000000.sql".toList, "m20240102_000000.sql".toList,
         "m20240103_000000.sql".toList]
      = some (if 2 = 0 then ["m20240101_000000.sql".toList, "m20240102_000000.sql".toList,
         "m20240103_000000.sql".toList] else
         ["m20240101_000000.sql".toList, "m20240102_000000.sql".toList,
         "m20240103_000000.sql".toList].take (min 2 3)) :=
  (migrateUp_plan_none_applied
    ["m20240101_000000.sql".toList, "m20240102_000000.sql".toList,
     "m20240103_000000.sql".toList] 2 [] (by decide) (by decide)).1

/-- C2, the code at the input of the claim: four entries, the second is the last
applied one, requested count 1. The plan holds the third and the fourth entry,
not the third alone: after the erase the loop counter `i` is 2 and the set has
2 entries, so the loop is left before `count` is looked at. -/
theorem migrateUp_plan_count_ignored :
    migrateUpPlan (lastMigrationIdOf 2 "m20240102_000000".toList) 1
        ["m20240101_000000.sql".toList, "m20240102_000000.sql".toList,
         "m20240103_000000.sql".toList, "m20240104_000000.sql".toList]
      = some ["m20240103_000000.sql".toList, "m20240104_000000.sql".toList] := by
  decide

/-! ## Facts about the preparation of the statements -/

theorem searchBlock_absent (marker : List Char) :
    ∀ (lines : List (List Char)), (∀ l ∈ lines, containsStr l marker = false) →
      searchBlock marker lines = none := by
  intro lines
  induction lines with
  | nil => intro _; rfl
  | cons p lines ih =>
    intro h
    have hp : containsStr p marker = false := h p (List.mem_cons_self _ _)
    simp only [searchBlock, hp, Bool.false_eq_true, if_false]
    exact ih (fun l hl => h l (List.mem_cons_of_mem _ hl))

/-- The statements found by the loop are appended to the ones already in the
list. -/
theorem upLoop_queries :
    ∀ (lines : List (List Char)) (d buf : List Char) (qs : List (List Char)),
      upLoop lines d buf qs = (upLoop lines d buf []).map (fun r => (qs ++ r.1, r.2)) := by
  intro lines
  induction lines with
  | nil => intro d buf qs; simp [upLoop]
  | cons line rest ih =>
    intro d buf qs
    rw [upLoop, upLoop]
    by_cases h1 : containsStr line downMarker = true
    · simp [h1]
    · simp only [h1, if_false]
      by_cases h2 : line = []
      · simp only [h2, if_true]
        exact ih d buf qs
      · simp only [h2, if_false]
        cases hre : regexSearch (cStr line) with
        | some capture => exact ih capture buf qs
        | none =>
          simp only
          by_cases h3 : containsStr line d = true
          · simp only [h3, if_true]
            cases hrep : replaceDelimiter d (buf ++ line ++ ['\n']) with
            | none => rfl
            | some replaced =>
              simp only
              rw [ih d [] (qs ++ [replaced]), ih d [] ([] ++ [replaced])]
              cases upLoop rest d [] [] <;> simp
          · simp only [h3, if_false]
            exact ih d _ qs

theorem applyQueries_spec {σ ε : Type} (execute : σ → List Char → σ × Option ε) :
    ∀ (qs : List (List Char)) (db : σ),
      Sequential execute db (applyQueries execute db qs).executed
      ∧ (applyQueries execute db qs).executed.map Prod.fst <+: qs
      ∧ (applyQueries execute db qs).db
          = stateAfter execute db ((applyQueries execute db qs).executed.map Prod.fst)
      ∧ ((applyQueries execute db qs).outcome = Outcome.allDone →
          (applyQueries execute db qs).executed = qs.map (fun q => (q, true))) := by
  intro qs
  induction qs with
  | nil =>
    intro db
    simp [applyQueries, Sequential, stateAfter]
  | cons q qs ih =>
    intro db
    rcases h : execute db q with ⟨db1, _ | e⟩
    · obtain ⟨h1, h2, h3, h4⟩ := ih db1
      simp only [applyQueries, h, Sequential, List.map_cons, stateAfter, List.foldl_cons,
        Option.isNone_none, true_and, Bool.true_eq_false, false_implies]
      refine ⟨h1, ?_, h3, ?_⟩
      · obtain ⟨t, ht⟩ := h2
        exact ⟨t, by rw [List.cons_append, ht]⟩
      · intro ho
        rw [h4 ho]
    · simp [applyQueries, h, Sequential, stateAfter]

theorem sequential_append {σ ε : Type} (execute : σ → List Char → σ × Option ε) :
    ∀ (a : List (List Char × Bool)) (db : σ) (b : List (List Char × Bool)),
      (∀ x ∈ a, x.2 = true) → Sequential execute db a →
      Sequential execute (stateAfter execute db (a.map Prod.fst)) b →
      Sequential execute db (a ++ b) := by
  intro a
  induction a with
  | nil => intro db b _ _ hb; simpa [stateAfter] using hb
  | cons x a ih =>
    intro db b hall ha hb
    obtain ⟨q, ok⟩ := x
    have hok : ok = true := hall (q, ok) (List.mem_cons_self _ _)
    subst hok
    simp only [Sequential, List.cons_append] at ha ⊢
    refine ⟨ha.1, by simp, ?_⟩
    apply ih _ b (fun x hx => hall x (List.mem_cons_of_mem _ hx)) ha.2.2
    simpa [stateAfter] using hb

theorem stateAfter_append {σ ε : Type} (execute : σ → List Char → σ × Option ε) (db : σ)
    (a b : List (List Char)) :
    stateAfter execute db (a ++ b) = stateAfter execute (stateAfter execute db a) b := by
  simp [stateAfter, List.foldl_append]

theorem migrateUpApply_spec {σ ε : Type} (readFile : List Char → Option (List Char))
    (execute : σ → List Char → σ × Option ε) :
    ∀ (plan : List (List Char)) (delimiter : List Char) (db : σ),
      Sequential execute db (migrateUpApply readFile execute plan delimiter db).executed
      ∧ (migrateUpApply readFile execute plan delimiter db).executed.map Prod.fst
          <+: upStatements readFile plan delimiter
      ∧ (migrateUpApply readFile execute plan delimiter db).db
          = stateAfter execute db
              ((migrateUpApply readFile execute plan delimiter db).executed.map Prod.fst) := by
  intro plan
  induction plan with
  | nil => intro delimiter db; simp [migrateUpApply, Sequential, stateAfter]
  | cons m rest ih =>
    intro delimiter db
    rw [migrateUpApply, upStatements]
    cases hr : readFile ("migrations/".toList ++ m) with
    | none => simp [Sequential, stateAfter]
    | some text =>
      simp only
      cases hp : prepareUp (migrationId m) delimiter (fileLines text) with
      | blockNotFound => simp [Sequential, stateAfter]
      | noReturn => simp [Sequential, stateAfter]
      | queries qs d1 =>
        simp only
        obtain ⟨h1, h2, h3, h4⟩ := applyQueries_spec execute qs db
        cases ho : (applyQueries execute db qs).outcome with
        | allDone =>
          simp only
          obtain ⟨i1, i2, i3⟩ := ih d1 (applyQueries execute db qs).db
          have hex := h4 ho
          have hmap : (applyQueries execute db qs).executed.map Prod.fst = qs := by
            rw [hex]; simp [Function.comp_def]
          rw [hmap] at h3
          refine ⟨?_, ?_, ?_⟩
          · apply sequential_append execute _ db _ _ h1
            · rw [hmap, ← h3]; exact i1
            · intro x hx; rw [hex] at hx; simp at hx; obtain ⟨_, _, rfl⟩ := hx; rfl
          · rw [List.map_append, hmap]
            exact (List.prefix_append_right_inj qs).mpr i2
          · rw [List.map_append, hmap, stateAfter_append, ← h3]
            exact i3
        | failedToOpen _ => exact ⟨h1, h2.trans (List.prefix_append _ _), h3⟩
        | blockNotFound _ => exact ⟨h1, h2.trans (List.prefix_append _ _), h3⟩
        | failed _ _ => exact ⟨h1, h2.trans (List.prefix_append _ _), h3⟩
        | noReturn => exact ⟨h1, h2.trans (List.prefix_append _ _), h3⟩

theorem migrateDownApply_spec {σ ε : Type} (readFile : List Char → Option (List Char))
    (execute : σ → List Char → σ × Option ε) :
    ∀ (plan : List (List Char)) (db : σ),
      Sequential execute db (migrateDownApply readFile execute plan db).executed
      ∧ (migrateDownApply readFile execute plan db).executed.map Prod.fst
          <+: downStatements readFile plan
      ∧ (migrateDownApply readFile execute plan db).db
          = stateAfter execute db
              ((migrateDownApply readFile execute plan db).executed.map Prod.fst) := by
  intro plan
  induction plan with
  | nil => intro db; simp [migrateDownApply, Sequential, stateAfter]
  | cons m rest ih =>
    intro db
    rw [migrateDownApply, downStatements]
    cases hr : readFile m with
    | none => simp [Sequential, stateAfter]
    | some text =>
      simp only
      cases hp : prepareDown (downMigrationId m) (fileLines text) with
      | none => simp [Sequential, stateAfter]
      | some qs =>
        simp only
        obtain ⟨h1, h2, h3, h4⟩ := applyQueries_spec execute qs db
        cases ho : (applyQueries execute db qs).outcome with
        | allDone =>
          simp only
          obtain ⟨i1, i2, i3⟩ := ih (applyQueries execute db qs).db
          have hex := h4 ho
          have hmap : (applyQueries execute db qs).executed.map Prod.fst = qs := by
            rw [hex]; simp [Function.comp_def]
          rw [hmap] at h3
          refine ⟨?_, ?_, ?_⟩
          · apply sequential_append execute _ db _ _ h1
            · rw [hmap, ← h3]; exact i1
            · intro x hx; rw [hex] at hx; simp at hx; obtain ⟨_, _, rfl⟩ := hx; rfl
          · rw [List.map_append, hmap]
            exact (List.prefix_append_right_inj qs).mpr i2
          · rw [List.map_append, hmap, stateAfter_append, ← h3]
            exact i3
        | failedToOpen _ => exact ⟨h1, h2.trans (List.prefix_append _ _), h3⟩
        | blockNotFound _ => exact ⟨h1, h2.trans (List.prefix_append _ _), h3⟩
        | failed _ _ => exact ⟨h1, h2.trans (List.prefix_append _ _), h3⟩
        | noReturn => exact ⟨h1, h2.trans (List.prefix_append _ _), h3⟩

/-! ## Facts and claims on runs that end early -/

/-- The block is reported as not found exactly when no line but the last one
contains the marker. -/
theorem searchBlock_none_iff (marker : List Char) :
    ∀ (lines : List (List Char)),
      searchBlock marker lines = none ↔ ∀ l ∈ lines.dropLast, containsStr l marker = false := by
  intro lines
  induction lines with
  | nil => simp [searchBlock]
  | cons line rest ih =>
    cases rest with
    | nil =>
      by_cases h : containsStr line marker = true <;> simp [searchBlock, h]
    | cons r rest =>
      by_cases h : containsStr line marker = true
      · simp [searchBlock, h, List.dropLast]
      · have hf : containsStr line marker = false := by simpa using h
        simp only [searchBlock, hf, Bool.false_eq_true, if_false] at ih ⊢
        rw [ih]
        simp [List.dropLast, hf]

/-- A planned file without a line with the UP marker ends the up run. -/
theorem missing_up_marker_stops {σ ε : Type} (readFile : List Char → Option (List Char))
    (execute : σ → List Char → σ × Option ε)
    (m text : List Char) (later : List (List Char))
    (hread : readFile ("migrations/".toList ++ m) = some text)
    (hup : ∀ l ∈ fileLines text, containsStr l upMarker = false) :
    ∀ (before : List (List Char)) (delimiter : List Char) (db : σ),
      (migrateUpApply readFile execute (before ++ m :: later) delimiter db).db
          = (migrateUpApply readFile execute before delimiter db).db
      ∧ (migrateUpApply readFile execute (before ++ m :: later) delimiter db).executed
          = (migrateUpApply readFile execute before delimiter db).executed
      ∧ ((migrateUpApply readFile execute before delimiter db).outcome = Outcome.allDone →
          (migrateUpApply readFile execute (before ++ m :: later) delimiter db).outcome
            = Outcome.blockNotFound (migrationId m)) := by
  intro before
  induction before with
  | nil =>
    intro delimiter db
    have hp : prepareUp (migrationId m) delimiter (fileLines text) = Prepared.blockNotFound := by
      simp [prepareUp, searchBlock_absent upMarker _ hup]
    have hrun : migrateUpApply readFile execute (m :: later) delimiter db
        = ⟨db, [], Outcome.blockNotFound (migrationId m)⟩ := by
      rw [migrateUpApply, hread]
      simp only [hp]
    rw [List.nil_append, hrun]
    simp [migrateUpApply]
  | cons b before ih =>
    intro delimiter db
    rw [List.cons_append, migrateUpApply, migrateUpApply]
    cases hr : readFile ("migrations/".toList ++ b) with
    | none => simp
    | some t =>
      simp only
      cases hp : prepareUp (migrationId b) delimiter (fileLines t) with
      | blockNotFound => simp
      | noReturn => simp
      | queries qs d1 =>
        simp only
        cases ho : (applyQueries execute db qs).outcome with
        | allDone =>
          simp only
          obtain ⟨i1, i2, i3⟩ := ih d1 (applyQueries execute db qs).db
          exact ⟨i1, by rw [i2], i3⟩
        | failedToOpen _ => simp [ho]
        | blockNotFound _ => simp [ho]
        | failed _ _ => simp [ho]
        | noReturn => simp [ho]

/-- A planned file without a line with the DOWN marker ends the down run. -/
theorem missing_down_marker_stops {σ ε : Type} (readFile : List Char → Option (List Char))
    (execute : σ → List Char → σ × Option ε)
    (path textDown : List Char) (laterDown : List (List Char))
    (hreadDown : readFile path = some textDown)
    (hdown : ∀ l ∈ fileLines textDown, containsStr l downMarker = false) :
    ∀ (before : List (List Char)) (db : σ),
      (migrateDownApply readFile execute (before ++ path :: laterDown) db).db
          = (migrateDownApply readFile execute before db).db
      ∧ (migrateDownApply readFile execute (before ++ path :: laterDown) db).executed
          = (migrateDownApply readFile execute before db).executed
      ∧ ((migrateDownApply readFile execute before db).outcome = Outcome.allDone →
          (migrateDownApply readFile execute (before ++ path :: laterDown) db).outcome
            = Outcome.blockNotFound (downMigrationId path)) := by
  intro before
  induction before with
  | nil =>
    intro db
    have hp : prepareDown (downMigrationId path) (fileLines textDown) = none := by
      simp [prepareDown, searchBlock_absent downMarker _ hdown]
    have hrun : migrateDownApply readFile execute (path :: laterDown) db
        = ⟨db, [], Outcome.blockNotFound (downMigrationId path)⟩ := by
      rw [migrateDownApply, hreadDown]
      simp only [hp]
    rw [List.nil_append, hrun]
    simp [migrateDownApply]
  | cons b before ih =>
    intro db
    rw [List.cons_append, migrateDownApply, migrateDownApply]
    cases hr : readFile b with
    | none => simp
    | some t =>
      simp only
      cases hp : prepareDown (downMigrationId b) (fileLines t) with
      | none => simp
      | some qs =>
        simp only
        cases ho : (applyQueries execute db qs).outcome with
        | allDone =>
          simp only
          obtain ⟨i1, i2, i3⟩ := ih (applyQueries execute db qs).db
          exact ⟨i1, by rw [i2], i3⟩
        | failedToOpen _ => simp [ho]
        | blockNotFound _ => simp [ho]
        | failed _ _ => simp [ho]
        | noReturn => simp [ho]

/-- C8, the code on a plan of two files: the first sets the delimiter `$$` in its
UP block, the second holds one statement ended by `;`. Run after the first in
the same invocation, the second file gives no statement but its insert into the
tracking table, its statement being read with the delimiter `$$` still active;
run alone, it gives the statement. -/
theorem delimiter_kept_across_files :
    (migrateUpApply
        (twoFiles
          "-- UP\nDELIMITER $$\nCREATE PROCEDURE p() BEGIN SELECT 1; END$$\n-- DOWN\nDROP PROCEDURE p;\n".toList
          "-- UP\nCREATE TABLE t(x INT);\n-- DOWN\nDROP TABLE t;\n".toList)
        acceptAll ["m20240101_000000.sql".toList, "m20240102_000000.sql".toList]
        [';'] ()).executed
      = [(insertQuery "m20240101_000000".toList, true),
         ("CREATE PROCEDURE p() BEGIN SELECT 1; END;\n".toList, true),
         (insertQuery "m20240102_000000".toList, true)]
    ∧ (migrateUpApply
        (twoFiles
          "-- UP\nDELIMITER $$\nCREATE PROCEDURE p() BEGIN SELECT 1; END$$\n-- DOWN\nDROP PROCEDURE p;\n".toList
          "-- UP\nCREATE TABLE t(x INT);\n-- DOWN\nDROP TABLE t;\n".toList)
        acceptAll ["m20240102_000000.sql".toList] [';'] ()).executed
      = [(insertQuery "m20240102_000000".toList, true),
         ("CREATE TABLE t(x INT);\n".toList, true)]
    ∧ prepareUp "m20240101_000000".toList [';']
        (fileLines
          "-- UP\nDELIMITER $$\nCREATE PROCEDURE p() BEGIN SELECT 1; END$$\n-- DOWN\nDROP PROCEDURE p;\n".toList)
      = Prepared.queries [insertQuery "m20240101_000000".toList,
          "CREATE PROCEDURE p() BEGIN SELECT 1; END;\n".toList] "$$".toList := by
  decide

/-- C9, the code on files whose marker line is the last line and has no newline
after it: the marker is there, and the block is reported as not found, in both
directions; with the newline the block is found. -/
theorem marker_on_last_line_rejected :
    containsStr "-- UP".toList upMarker = true
    ∧ prepareUp "m20240101_000000".toList [';'] (fileLines "-- UP".toList)
      = Prepared.blockNotFound
    ∧ prepareUp "m20240101_000000".toList [';'] (fileLines "-- UP\n".toList)
      = Prepared.queries [insertQuery "m20240101_000000".toList] [';']
    ∧ prepareDown "m20240101_000000".toList
        (fileLines "-- UP\nCREATE TABLE t(x INT);\n-- DOWN".toList) = none
    ∧ prepareDown "m20240101_000000".toList
        (fileLines "-- UP\nCREATE TABLE t(x INT);\n-- DOWN\n".toList)
      = some [deleteQuery "m20240101_000000".toList] := by
  decide

/-! ## Facts about the replacement of the delimiter -/

theorem replaceAll_skip (d : List Char) :
    ∀ (n : Nat) (s : List Char), replaceAll d n s = replaceAll d 0 (s.drop n) := by
  intro n
  induction n with
  | zero => intro s; simp
  | succ n ih =>
    intro s
    cases s with
    | nil => simp [replaceAll]
    | cons c cs => simp only [replaceAll, List.drop_succ_cons]; exact ih cs

theorem replaceAll_of_find_none (d : List Char) :
    ∀ (s : List Char), find d s = none → replaceAll d 0 s = s := by
  intro s
  induction s with
  | nil => intro _; rfl
  | cons c cs ih =>
    intro h
    rw [find] at h
    by_cases hp : d.isPrefixOf (c :: cs) = true
    · simp [hp] at h
    · have hpf : d.isPrefixOf (c :: cs) = false := Bool.eq_false_iff.mpr hp
      simp only [hpf, Bool.false_eq_true, if_false] at h
      have h2 : find d cs = none := by
        cases hj : find d cs with
        | none => rfl
        | some j => simp [hj] at h
      simp only [replaceAll, hpf, Bool.false_eq_true, if_false, ih h2]

theorem find_bound (d : List Char) :
    ∀ (s : List Char) (k : Nat), find d s = some k → k + d.length ≤ s.length := by
  intro s
  induction s with
  | nil =>
    intro k h
    rw [find] at h
    by_cases hd : d.isEmpty = true
    · simp only [hd, if_true, Option.some.injEq] at h
      have : d = [] := by simpa using hd
      subst this; subst h; simp
    · simp [hd] at h
  | cons c cs ih =>
    intro k h
    rw [find] at h
    by_cases hp : d.isPrefixOf (c :: cs) = true
    · simp only [hp, if_true, Option.some.injEq] at h
      subst h
      have := (List.isPrefixOf_iff_prefix.mp hp).length_le
      simpa using this
    · have hpf : d.isPrefixOf (c :: cs) = false := Bool.eq_false_iff.mpr hp
      simp only [hpf, Bool.false_eq_true, if_false] at h
      cases hj : find d cs with
      | none => simp [hj] at h
      | some j =>
        simp only [hj, Option.map_some', Option.some.injEq] at h
        subst h
        have := ih j hj
        simp only [List.length_cons]
        omega

theorem replaceAll_of_find_some (d : List Char) (hd : d ≠ []) :
    ∀ (s : List Char) (k : Nat), find d s = some k →
      replaceAll d 0 s = s.take k ++ ';' :: replaceAll d 0 (s.drop (k + d.length)) := by
  have hlen : 0 < d.length := List.length_pos.mpr hd
  intro s
  induction s with
  | nil =>
    intro k h
    rw [find] at h
    have : d.isEmpty = false := by simpa using hd
    simp [this] at h
  | cons c cs ih =>
    intro k h
    rw [find] at h
    by_cases hp : d.isPrefixOf (c :: cs) = true
    · simp only [hp, if_true, Option.some.injEq] at h
      subst h
      simp only [replaceAll, hp, if_true, List.take_zero, List.nil_append, Nat.zero_add]
      rw [replaceAll_skip d (d.length - 1) cs]
      obtain ⟨n, hn⟩ : ∃ n, d.length = n + 1 := ⟨d.length - 1, by omega⟩
      simp [hn]
    · have hpf : d.isPrefixOf (c :: cs) = false := Bool.eq_false_iff.mpr hp
      simp only [hpf, Bool.false_eq_true, if_false] at h
      cases hj : find d cs with
      | none => simp [hj] at h
      | some j =>
        simp only [hj, Option.map_some', Option.some.injEq] at h
        subst h
        simp only [replaceAll, hpf, Bool.false_eq_true, if_false, ih j hj]
        have e : j + 1 + d.length = (j + d.length) + 1 := by omega
        simp [e]

theorem replaceLoop_eq (d : List Char) (hd : d ≠ []) :
    ∀ (fuel : Nat) (done rest : List Char), rest.length + 1 ≤ fuel →
      replaceLoop d fuel (done ++ rest) done.length = some (done ++ replaceAll d 0 rest) := by
  have hlen : 0 < d.length := List.length_pos.mpr hd
  intro fuel
  induction fuel with
  | zero => intro done rest h; omega
  | succ fuel ih =>
    intro done rest hf
    have hfind : findFrom d (done ++ rest) done.length
        = (find d rest).map (· + done.length) := by
      simp [findFrom]
    rw [replaceLoop, hfind]
    cases hk : find d rest with
    | none =>
      simp [replaceAll_of_find_none d rest hk]
    | some k =>
      have hb := find_bound d rest k hk
      simp only [Option.map_some']
      have e1 : (done ++ rest).take (k + done.length) = done ++ rest.take k := by
        rw [List.take_append_eq_append_take]
        have : k + done.length - done.length = k := by omega
        simp [this]
      have e2 : (done ++ rest).drop (k + done.length + d.length) = rest.drop (k + d.length) := by
        rw [List.drop_append_eq_append_drop]
        have h1 : k + done.length + d.length - done.length = k + d.length := by omega
        have h2 : done.drop (k + done.length + d.length) = [] := by
          apply List.drop_eq_nil_of_le; omega
        simp [h1, h2]
      rw [e1, e2]
      have e3 : done ++ rest.take k ++ ';' :: rest.drop (k + d.length)
          = (done ++ rest.take k ++ [';']) ++ rest.drop (k + d.length) := by simp
      have e4 : k + done.length + 1 = (done ++ rest.take k ++ [';']).length := by
        simp [List.length_take]; omega
      rw [e3, e4, ih _ _ (by simp [List.length_drop]; omega),
        replaceAll_of_find_some d hd rest k hk]
      simp

theorem replaceDelimiter_eq (d : List Char) (hd : d ≠ []) (s : List Char) :
    replaceDelimiter d s = some (replaceAll d 0 s) := by
  have := replaceLoop_eq d hd (s.length + 1) [] s (by omega)
  simpa [replaceDelimiter] using this

/-- Lines that are statement text without the active delimiter are added to the
pending text. -/
theorem upLoop_accumulate (d : List Char) :
    ∀ (body : List (List Char)) (rest : List (List Char)) (buf : List Char)
      (qs : List (List Char)),
      (∀ l ∈ body, l ≠ [] ∧ containsStr l downMarker = false
        ∧ regexSearch (cStr l) = none ∧ containsStr l d = false) →
      upLoop (body ++ rest) d buf qs = upLoop rest d (buf ++ joinLines body) qs := by
  intro body
  induction body with
  | nil => intro rest buf qs _; simp [joinLines]
  | cons l body ih =>
    intro rest buf qs h
    obtain ⟨h1, h2, h3, h4⟩ := h l (List.mem_cons_self _ _)
    rw [List.cons_append, upLoop]
    simp only [h2, Bool.false_eq_true, if_false, h1, h3, h4]
    rw [ih rest _ qs (fun x hx => h x (List.mem_cons_of_mem _ hx))]
    simp [joinLines]

theorem replaceAll_start (d : List Char) :
    ∀ (e s : List Char), ';' ∉ e → e.isPrefixOf (replaceAll d 0 s) = true →
      e.isPrefixOf s = true := by
  intro e
  induction e with
  | nil => intro s _ _; simp
  | cons x e ih =>
    intro s hx hp
    have hx1 : x ≠ ';' := fun h => hx (by simp [h])
    have hx2 : ';' ∉ e := fun h => hx (List.mem_cons_of_mem _ h)
    cases s with
    | nil => simp [replaceAll] at hp
    | cons c cs =>
      rw [replaceAll] at hp
      by_cases hm : d.isPrefixOf (c :: cs) = true
      · simp only [hm, if_true, List.isPrefixOf_cons₂, Bool.and_eq_true, beq_iff_eq] at hp
        exact absurd hp.1 hx1
      · have hmf : d.isPrefixOf (c :: cs) = false := Bool.eq_false_iff.mpr hm
        simp only [hmf, Bool.false_eq_true, if_false, List.isPrefixOf_cons₂, Bool.and_eq_true,
          beq_iff_eq] at hp
        simp only [List.isPrefixOf_cons₂, Bool.and_eq_true, beq_iff_eq]
        exact ⟨hp.1, ih cs hx2 hp.2⟩

theorem find_cons_none (d : List Char) (c : Char) (t : List Char)
    (h1 : d.isPrefixOf (c :: t) = false) (h2 : find d t = none) :
    find d (c :: t) = none := by
  simp [find, h1, h2]

/-- No occurrence of the delimiter is left in the text after the replacement. -/
theorem find_replaceAll (d : List Char) (hd : d ≠ []) (hsemi : ';' ∉ d) :
    ∀ (n : Nat) (s : List Char), s.length ≤ n → find d (replaceAll d 0 s) = none := by
  have hlen : 0 < d.length := List.length_pos.mpr hd
  have hempty : d.isEmpty = false := by simpa using hd
  intro n
  induction n with
  | zero =>
    intro s hs
    have : s = [] := List.length_eq_zero.mp (by omega)
    subst this
    simp [replaceAll, find, hempty]
  | succ n ih =>
    intro s hs
    cases s with
    | nil => simp [replaceAll, find, hempty]
    | cons c cs =>
      rw [replaceAll]
      by_cases hm : d.isPrefixOf (c :: cs) = true
      · simp only [hm, if_true]
        rw [replaceAll_skip]
        apply find_cons_none
        · cases d with
          | nil => exact absurd rfl hd
          | cons x d =>
            have : x ≠ ';' := fun h => hsemi (by simp [h])
            rw [List.isPrefixOf_cons₂]
            simp [this]
        · exact ih (cs.drop (d.length - 1)) (by simp at hs ⊢; omega)
      · simp only [hm, if_false]
        apply find_cons_none
        · apply Bool.eq_false_iff.mpr
          intro hp
          apply hm
          cases d with
          | nil => exact absurd rfl hd
          | cons x d =>
            simp only [List.isPrefixOf_cons₂, Bool.and_eq_true, beq_iff_eq] at hp ⊢
            exact ⟨hp.1, replaceAll_start (x :: d) d cs
              (fun h => hsemi (List.mem_cons_of_mem _ h)) hp.2⟩
        · exact ih cs (by simp at hs; omega)

/-! ## Claim on the delimiter control line -/

/-- C7, a block against the claim: a line that is not ended by `;` comes before
the control line. The one statement emitted for the line after the control line
starts with the text of that earlier line; it is not the text of the line after
the control line alone. -/
theorem pending_text_joins_statement :
    upLoop ["CREATE TABLE a (x INT)".toList, "DELIMITER $$".toList,
        "CREATE PROCEDURE p() BEGIN SELECT 1; END$$".toList] [';'] [] []
      = some (["CREATE TABLE a (x INT)\nCREATE PROCEDURE p() BEGIN SELECT 1; END;\n".toList],
          "$$".toList)
    ∧ upLoop ["CREATE TABLE a (x INT)".toList, "DELIMITER $$".toList,
        "CREATE PROCEDURE p() BEGIN SELECT 1; END$$".toList] [';'] [] []
      ≠ some ([replaceAll "$$".toList 0
          (joinLines ["CREATE PROCEDURE p() BEGIN SELECT 1; END$$".toList])], "$$".toList) := by
  decide

/-- C7 as amended: in an UP block, let a control line setting the delimiter `d`
(not empty, without `;`) be followed by lines of statement text (not blank, no
control line, no DOWN marker) of which only the last contains `d`. Then the
splitter emits exactly one statement for them: the text still pending from
earlier lines, if any, followed by the lines, each with a newline after it, with
every occurrence of `d` replaced by `;` and every other character kept. No
occurrence of `d` is left in it, and the next line is read with nothing
pending. -/
theorem delimiter_block_one_statement (d0 d pending : List Char) (qs : List (List Char))
    (ctrl : List Char) (body : List (List Char)) (lastLine : List Char)
    (rest : List (List Char))
    (hctrl : ctrl ≠ [] ∧ containsStr ctrl downMarker = false
      ∧ regexSearch (cStr ctrl) = some d)
    (hd : d ≠ []) (hsemi : ';' ∉ d)
    (hbody : ∀ l ∈ body ++ [lastLine], l ≠ [] ∧ containsStr l downMarker = false
      ∧ regexSearch (cStr l) = none)
    (hnone : ∀ l ∈ body, containsStr l d = false)
    (hlast : containsStr lastLine d = true) :
    upLoop (ctrl :: (body ++ lastLine :: rest)) d0 pending qs
      = upLoop rest d []
          (qs ++ [replaceAll d 0 (pending ++ joinLines (body ++ [lastLine]))])
    ∧ containsStr (replaceAll d 0 (pending ++ joinLines (body ++ [lastLine]))) d = false := by
  constructor
  · obtain ⟨c1, c2, c3⟩ := hctrl
    rw [upLoop]
    simp only [c2, Bool.false_eq_true, if_false, c1, c3]
    rw [upLoop_accumulate d body (lastLine :: rest) pending qs
      (fun l hl => ⟨(hbody l (by simp [hl])).1, (hbody l (by simp [hl])).2.1,
        (hbody l (by simp [hl])).2.2, hnone l hl⟩)]
    obtain ⟨l1, l2, l3⟩ := hbody lastLine (by simp)
    rw [upLoop]
    simp only [l2, Bool.false_eq_true, if_false, l1, l3, hlast, if_true,
      replaceDelimiter_eq d hd]
    have e : pending ++ joinLines body ++ lastLine ++ ['\n']
        = pending ++ joinLines (body ++ [lastLine]) := by
      have : ∀ (a : List (List Char)), joinLines (a ++ [lastLine])
          = joinLines a ++ lastLine ++ ['\n'] := by
        intro a
        induction a with
        | nil => simp [joinLines]
        | cons x a iha => simp [joinLines, iha]
      rw [this]; simp
    rw [e]
  · simp only [containsStr]
    rw [find_replaceAll d hd hsemi _ _ (Nat.le_refl _)]
    rfl

theorem delimiter_block_one_statement_witness :
    upLoop ("DELIMITER $$".toList :: (["CREATE PROCEDURE p()".toList, "BEGIN".toList]
        ++ "SELECT 1; END$$".toList :: ["-- DOWN".toList])) [';'] [] []
      = upLoop ["-- DOWN".toList] "$$".toList []
          ([] ++ [replaceAll "$$".toList 0
            ([] ++ joinLines (["CREATE PROCEDURE p()".toList, "BEGIN".toList]
              ++ ["SELECT 1; END$$".toList]))]) :=
  (delimiter_block_one_statement [';'] "$$".toList [] [] "DELIMITER $$".toList
    ["CREATE PROCEDURE p()".toList, "BEGIN".toList] "SELECT 1; END$$".toList
    ["-- DOWN".toList] (by decide) (by decide) (by decide) (by decide) (by decide)
    (by decide)).1

/-! ## Claims on a last applied identifier outside the catalog, on the template and on the empty delimiter -/

/-- C18: when the last applied identifier is not empty and is the identifier of
no catalog entry, the plan of `migrateUp` is the whole catalog whatever the
requested count is; the entries whose identifier is below the last applied one
are in it like the others. -/
theorem migrateUp_plan_unknown_last (catalog : List (List Char)) (count : Nat)
    (appliedMigrations : Nat) (lastRow : List Char)
    (hlen : catalog.length < 4294967296)
    (happlied : appliedMigrations ≠ 0) (hrow : lastRow ≠ [])
    (hno : ∀ f ∈ catalog, lastRow ≠ migrationId f) :
    migrateUpPlan (lastMigrationIdOf appliedMigrations lastRow) count catalog = some catalog
    ∧ ∀ f ∈ catalog, strLess (migrationId f) lastRow = true →
        ∃ plan, migrateUpPlan (lastMigrationIdOf appliedMigrations lastRow) count catalog
          = some plan ∧ f ∈ plan := by
  have hl : lastMigrationIdOf appliedMigrations lastRow = lastRow := by
    simp [lastMigrationIdOf, happlied]
  have hf : (lastRow == []) = false := by simpa using hrow
  have hplan : migrateUpPlan lastRow count catalog = some catalog := by
    unfold migrateUpPlan
    simp only [hf]
    have h := filterLoop_unfiltered_none lastRow catalog [] (catalog.length + 1)
      (if (count == 0) = true then catalog.length % 4294967296 else count)
      (by simpa using hlen) hno (Nat.le_refl _)
    simpa using h
  rw [hl]
  exact ⟨hplan, fun f hf _ => ⟨catalog, hplan, hf⟩⟩

theorem migrateUp_plan_unknown_last_witness :
    migrateUpPlan (lastMigrationIdOf 1 "m20240102_000000".toList) 1
        ["m20240101_000000.sql".toList, "m20240103_000000.sql".toList]
      = some ["m20240101_000000.sql".toList, "m20240103_000000.sql".toList] :=
  (migrateUp_plan_unknown_last
    ["m20240101_000000.sql".toList, "m20240103_000000.sql".toList] 1 1
    "m20240102_000000".toList (by decide) (by decide) (by decide) (by decide)).1

/-- The statement lists of the text written by `createMigration`. -/
theorem prepare_template (id delimiter : List Char) :
    prepareUp id delimiter (fileLines createMigrationTemplate)
      = Prepared.queries [insertQuery id] delimiter
    ∧ prepareDown id (fileLines createMigrationTemplate) = some [deleteQuery id] := by
  have hl : fileLines createMigrationTemplate
      = ["-- UP".toList, [], "-- DOWN".toList, [], []] := by decide
  have hu : searchBlock upMarker ["-- UP".toList, [], "-- DOWN".toList, [], []]
      = some [[], "-- DOWN".toList, [], []] := by decide
  have hd : searchBlock downMarker ["-- UP".toList, [], "-- DOWN".toList, [], []]
      = some [[], []] := by decide
  have c1 : containsStr [] downMarker = false := by decide
  have c2 : containsStr "-- DOWN".toList downMarker = true := by decide
  have c3 : containsStr [] [';'] = false := by decide
  constructor
  · rw [hl, prepareUp, hu]
    simp only [upLoop, c1, c2, Bool.false_eq_true, if_false, if_true]
  · rw [hl, prepareDown, hd]
    simp only [downLoop, List.append_nil, List.nil_append, c3, Bool.false_eq_true, if_false]

theorem find_nil_pattern : ∀ (s : List Char), find [] s = some 0
  | [] => rfl
  | _ :: _ => rfl

/-- With the empty delimiter the replacement loop is not left, whatever the number
of searches allowed. -/
theorem replaceLoop_empty_delimiter :
    ∀ (fuel : Nat) (s : List Char) (pos : Nat), pos ≤ s.length →
      replaceLoop [] fuel s pos = none := by
  intro fuel
  induction fuel with
  | zero => intro s pos _; rfl
  | succ fuel ih =>
    intro s pos hpos
    have hfind : findFrom [] s pos = some pos := by
      simp [findFrom, hpos, find_nil_pattern]
    rw [replaceLoop, hfind]
    simp only
    apply ih
    simp [List.length_take, List.length_drop]
    omega

/-- C17, the code on a file that sets the empty delimiter: the control line
`DELIMITER ` with nothing after the space is matched with the empty capture, and
at the next line of statement text the replacement loop of lines 279-283 finds
the empty delimiter at every position and puts a `;` there, so it is not left
after any number of searches and the preparation does not return. -/
theorem empty_delimiter_loop_not_left :
    regexSearch (cStr "DELIMITER ".toList) = some []
    ∧ containsStr "SELECT 1;".toList [] = true
    ∧ (∀ (fuel : Nat) (sqlQuery : List Char), replaceLoop [] fuel sqlQuery 0 = none)
    ∧ prepareUp "m20240101_000000".toList [';']
        (fileLines "-- UP\nDELIMITER \nSELECT 1;\n-- DOWN\n".toList) = Prepared.noReturn := by
  refine ⟨by decide, by decide, ?_, by decide⟩
  intro fuel sqlQuery
  exact replaceLoop_empty_delimiter fuel sqlQuery 0 (Nat.zero_le _)

/-! ## Claims on the DOWN splitter and on the end of a block -/

theorem downLoop_no_semicolon :
    ∀ (chunk rest : List (List Char)) (buf : List Char) (qs : List (List Char)),
      (∀ x ∈ chunk, containsStr x [';'] = false) →
      downLoop (chunk ++ rest) buf qs = downLoop rest (buf ++ joinLines chunk) qs := by
  intro chunk
  induction chunk with
  | nil => intro rest buf qs _; simp [joinLines]
  | cons x chunk ih =>
    intro rest buf qs h
    have hx : containsStr x [';'] = false := h x (List.mem_cons_self _ _)
    rw [List.cons_append, downLoop]
    simp only [hx, Bool.false_eq_true, if_false]
    rw [ih rest _ qs (fun y hy => h y (List.mem_cons_of_mem _ hy))]
    simp [joinLines]

theorem joinLines_append (a b : List (List Char)) :
    joinLines (a ++ b) = joinLines a ++ joinLines b := by
  induction a with
  | nil => rfl
  | cons x a ih => simp [joinLines, ih]

theorem downLoop_length :
    ∀ (lines : List (List Char)) (buf : List Char) (qs : List (List Char)),
      (downLoop lines buf qs).length
        = qs.length + (lines.filter (fun l => containsStr l [';'])).length := by
  intro lines
  induction lines with
  | nil => intro buf qs; simp [downLoop]
  | cons l lines ih =>
    intro buf qs
    rw [downLoop]
    by_cases h : containsStr l [';'] = true
    · simp only [h, if_true, List.filter_cons]
      rw [ih]
      simp
      omega
    · have hf : containsStr l [';'] = false := Bool.eq_false_iff.mpr h
      simp only [hf, Bool.false_eq_true, if_false, List.filter_cons]
      rw [ih]

/-- C16: in the DOWN block a statement ends at each line that contains `;` and
nowhere else. Lines without `;` followed by a line with `;` give one statement,
these lines each with a newline after it, whether or not some of them are
`DELIMITER` lines; the number of statements is the number of lines with `;`; a
`DELIMITER $$` line changes nothing: it is text of the statement that the next
line with `;` ends. -/
theorem down_statement_ends_at_semicolon (chunk : List (List Char)) (l : List Char)
    (rest : List (List Char)) (qs : List (List Char))
    (hchunk : ∀ x ∈ chunk, containsStr x [';'] = false)
    (hl : containsStr l [';'] = true) :
    downLoop (chunk ++ l :: rest) [] qs
      = downLoop rest [] (qs ++ [joinLines (chunk ++ [l])])
    ∧ (∀ lines : List (List Char),
        (downLoop lines [] []).length
          = (lines.filter (fun x => containsStr x [';'])).length)
    ∧ downLoop ["DELIMITER $$".toList, "DROP PROCEDURE p$$".toList, "DROP TABLE t;".toList,
          []] [] []
      = ["DELIMITER $$\nDROP PROCEDURE p$$\nDROP TABLE t;\n".toList] := by
  refine ⟨?_, ?_, by decide⟩
  · rw [downLoop_no_semicolon chunk (l :: rest) [] qs hchunk, downLoop]
    simp only [hl, if_true, List.nil_append]
    rw [joinLines_append]
    simp [joinLines]
  · intro lines
    simpa using downLoop_length lines [] []

theorem down_statement_ends_at_semicolon_witness :
    downLoop (["DELIMITER $$".toList, "DROP PROCEDURE p$$".toList]
        ++ "DROP TABLE t;".toList :: [[]]) [] []
      = downLoop [[]] []
          ([] ++ [joinLines (["DELIMITER $$".toList, "DROP PROCEDURE p$$".toList]
            ++ ["DROP TABLE t;".toList])]) :=
  (down_statement_ends_at_semicolon ["DELIMITER $$".toList, "DROP PROCEDURE p$$".toList]
    "DROP TABLE t;".toList [[]] [] (by decide) (by decide)).1

theorem upLoop_quiet :
    ∀ (tail : List (List Char)) (d buf : List Char) (qs : List (List Char))
      (rest : List (List Char)),
      quietLines tail d = true →
      (rest = [] ∨ ∃ dl r, rest = dl :: r ∧ containsStr dl downMarker = true) →
      ∃ d2, upLoop (tail ++ rest) d buf qs = some (qs, d2) := by
  intro tail
  induction tail with
  | nil =>
    intro d buf qs rest _ hrest
    rcases hrest with rfl | ⟨dl, r, rfl, hdl⟩
    · exact ⟨d, by simp [upLoop]⟩
    · exact ⟨d, by simp [upLoop, hdl]⟩
  | cons line tail ih =>
    intro d buf qs rest hq hrest
    rw [quietLines] at hq
    rw [List.cons_append, upLoop]
    by_cases h1 : containsStr line downMarker = true
    · simp [h1] at hq
    · have h1f : containsStr line downMarker = false := Bool.eq_false_iff.mpr h1
      simp only [h1f, Bool.false_eq_true, if_false] at hq ⊢
      by_cases h2 : line = []
      · simp only [h2, if_true] at hq ⊢
        exact ih d buf qs rest hq hrest
      · simp only [h2, if_false] at hq ⊢
        cases hre : regexSearch (cStr line) with
        | some capture =>
          simp only [hre] at hq ⊢
          exact ih capture buf qs rest hq hrest
        | none =>
          simp only [hre, Bool.and_eq_true, Bool.not_eq_true'] at hq ⊢
          simp only [hq.1, Bool.false_eq_true, if_false]
          exact ih d _ qs rest hq.2 hrest

/-- C15: text that no delimiter line follows is dropped at the end of the block.
In the UP block, from whatever statements `qs`, pending text and delimiter the
lines before have left, lines that complete no statement, up to the DOWN marker
or the end of the file, leave the statement list as it is: the loop returns
`qs`. In the DOWN block lines without `;` up to the end of the file leave the
statement list as it is. The pending text and these lines are in no statement,
so they are not executed, and the preparation returns without an error. -/
theorem unterminated_text_dropped (tail : List (List Char)) (d buf : List Char)
    (qs : List (List Char)) (rest : List (List Char)) (id : List Char)
    (tailDown : List (List Char)) (bufDown : List Char)
    (hquiet : quietLines tail d = true)
    (hrest : rest = [] ∨ ∃ dl r, rest = dl :: r ∧ containsStr dl downMarker = true)
    (hdown : ∀ x ∈ tailDown, containsStr x [';'] = false) :
    (∃ d2, upLoop (tail ++ rest) d buf qs = some (qs, d2))
    ∧ downLoop tailDown bufDown qs = qs
    ∧ prepareUp id [';']
        (fileLines "-- UP\nCREATE TABLE t(x INT);\nCREATE TABLE u(y INT)\n-- DOWN\n".toList)
      = Prepared.queries [insertQuery id, "CREATE TABLE t(x INT);\n".toList] [';']
    ∧ prepareDown id
        (fileLines "-- UP\n-- DOWN\nDROP TABLE t;\nDROP TABLE u\n".toList)
      = some ["DROP TABLE t;\n".toList, deleteQuery id] := by
  refine ⟨upLoop_quiet tail d buf qs rest hquiet hrest, ?_, ?_, ?_⟩
  · have h := downLoop_no_semicolon tailDown [] bufDown qs hdown
    simpa [downLoop] using h
  · have hl : fileLines "-- UP\nCREATE TABLE t(x INT);\nCREATE TABLE u(y INT)\n-- DOWN\n".toList
        = ["-- UP".toList, "CREATE TABLE t(x INT);".toList, "CREATE TABLE u(y INT)".toList,
           "-- DOWN".toList, []] := by decide
    have hs : searchBlock upMarker ["-- UP".toList, "CREATE TABLE t(x INT);".toList,
          "CREATE TABLE u(y INT)".toList, "-- DOWN".toList, []]
        = some ["CREATE TABLE t(x INT);".toList, "CREATE TABLE u(y INT)".toList,
           "-- DOWN".toList, []] := by decide
    have hu : upLoop ["CREATE TABLE t(x INT);".toList, "CREATE TABLE u(y INT)".toList,
          "-- DOWN".toList, []] [';'] [] []
        = some (["CREATE TABLE t(x INT);\n".toList], [';']) := by decide
    rw [hl, prepareUp, hs]
    simp only
    rw [upLoop_queries, hu]
    rfl
  · have hl : fileLines "-- UP\n-- DOWN\nDROP TABLE t;\nDROP TABLE u\n".toList
        = ["-- UP".toList, "-- DOWN".toList, "DROP TABLE t;".toList, "DROP TABLE u".toList,
           []] := by decide
    have hs : searchBlock downMarker ["-- UP".toList, "-- DOWN".toList,
          "DROP TABLE t;".toList, "DROP TABLE u".toList, []]
        = some ["DROP TABLE t;".toList, "DROP TABLE u".toList, []] := by decide
    have hd : downLoop ["DROP TABLE t;".toList, "DROP TABLE u".toList, []] [] []
        = ["DROP TABLE t;\n".toList] := by decide
    rw [hl, prepareDown, hs]
    simp only
    rw [hd]
    rfl

theorem unterminated_text_dropped_witness :
    ∃ d2, upLoop (["CREATE TABLE u(y INT)".toList, "DELIMITER $$".toList, "SELECT 1;".toList]
        ++ ["-- DOWN".toList]) [';'] "pending\n".toList ["CREATE TABLE t(x INT);\n".toList]
      = some (["CREATE TABLE t(x INT);\n".toList], d2) :=
  (unterminated_text_dropped
    ["CREATE TABLE u(y INT)".toList, "DELIMITER $$".toList, "SELECT 1;".toList]
    [';'] "pending\n".toList ["CREATE TABLE t(x INT);\n".toList] ["-- DOWN".toList]
    "m20240101_000000".toList ["DROP TABLE u".toList, []] []
    (by decide) (Or.inr ⟨"-- DOWN".toList, [], rfl, by decide⟩) (by decide)).1

/-! ## Claims on the two commands -/

/-- C13, a run against the claim: on a database without tracking table the user
declines the confirmation of `migrateUp`. The statement of `dbInit` has been
executed before the question and the database holds a tracking table at the
return. -/
theorem declined_up_creates_table :
    (migrateUp freshDatabase true ["m20240101_000000.sql".toList]
        (oneFile "-- UP\nCREATE TABLE t(x INT);\n-- DOWN\nDROP TABLE t;\n".toList)
        (fun _ => false) 0 none)
      = ⟨some [], [(createTableQuery, true)],
          some "\nApplicable migrations (1 pcs.):\nm20240101_000000\n\nApply above migrations?".toList,
          Ending.declined⟩
    ∧ (some [] : Option (List (List Char))) ≠ none := by
  decide

/-! ## Claim on the names of new migrations -/

theorem digitChar_toNat (d : Nat) (h : d < 10) : (digitChar d).toNat = 48 + d := by
  interval_cases d <;> rfl

theorem decimalAux_ge (fuel n : Nat) (acc : List Char) (h : ¬ n < 10) :
    decimalAux (fuel + 1) n acc = decimalAux fuel (n / 10) (digitChar (n % 10) :: acc) := by
  simp [decimalAux, h]

theorem decimalAux_lt (fuel n : Nat) (acc : List Char) (h : n < 10) :
    decimalAux (fuel + 1) n acc = digitChar n :: acc := by
  simp [decimalAux, h]

theorem pad2_eq_twoDigits (v : Nat) (h : v < 100) : pad2 v = twoDigits v := by
  unfold pad2 twoDigits
  by_cases h10 : v < 10
  · have e1 : v / 10 = 0 := by omega
    have e2 : v % 10 = v := by omega
    simp only [h10, if_true, e1, e2]
    rfl
  · obtain ⟨k, rfl⟩ : ∃ k, v = k + 1 := ⟨v - 1, by omega⟩
    simp only [h10, if_false, decimal]
    rw [decimalAux_ge _ _ _ h10, decimalAux_lt _ _ _ (by omega)]

theorem decimal_year (y : Nat) (h1 : 1000 ≤ y) (h2 : y ≤ 9999) :
    decimal y = twoDigits (y / 100) ++ twoDigits (y % 100) := by
  obtain ⟨k, rfl⟩ : ∃ k, y = k + 3 := ⟨y - 3, by omega⟩
  unfold decimal twoDigits
  rw [decimalAux_ge _ _ _ (by omega), decimalAux_ge _ _ _ (by omega),
    decimalAux_ge _ _ _ (by omega), decimalAux_lt _ _ _ (by omega)]
  have e1 : (k + 3) / 10 / 10 / 10 = (k + 3) / 100 / 10 := by omega
  have e2 : (k + 3) / 10 / 10 % 10 = (k + 3) / 100 % 10 := by omega
  have e3 : (k + 3) / 10 % 10 = (k + 3) % 100 / 10 := by omega
  have e4 : (k + 3) % 10 = (k + 3) % 100 % 10 := by omega
  rw [e1, e2, e3, e4]
  rfl

theorem strLess_twoDigits (a b : Nat) (x y : List Char) (ha : a < 100) (hb : b < 100) :
    strLess (twoDigits a ++ x) (twoDigits b ++ y)
      = if a < b then true else if b < a then false else strLess x y := by
  have a1 := digitChar_toNat (a / 10) (by omega)
  have a2 := digitChar_toNat (a % 10) (Nat.mod_lt _ (by omega))
  have b1 := digitChar_toNat (b / 10) (by omega)
  have b2 := digitChar_toNat (b % 10) (Nat.mod_lt _ (by omega))
  simp only [twoDigits, List.cons_append, List.nil_append, strLess, a1, a2, b1, b2]
  split_ifs <;> first | rfl | omega

theorem strLess_same_head (c : Char) (x y : List Char) :
    strLess (c :: x) (c :: y) = strLess x y := by
  simp [strLess]

/-- The file name of a well formed time, as digits. -/
theorem createMigrationFilename_digits (t : LocalTime) (h : t.wellFormed = true) :
    createMigrationFilename t
      = 'm' :: (twoDigits (t.year / 100) ++ (twoDigits (t.year % 100)
          ++ (twoDigits t.month ++ (twoDigits t.day ++ ('_' :: (twoDigits t.hour
          ++ (twoDigits t.minute ++ (twoDigits t.second ++ ".sql".toList)))))))) := by
  simp only [LocalTime.wellFormed, Bool.and_eq_true, decide_eq_true_eq] at h
  obtain ⟨⟨⟨⟨⟨⟨⟨⟨y1, y2⟩, m1⟩, m2⟩, d1⟩, d2⟩, hh⟩, mi⟩, ss⟩ := h
  unfold createMigrationFilename
  rw [decimal_year _ y1 y2, pad2_eq_twoDigits _ (by omega), pad2_eq_twoDigits _ (by omega),
    pad2_eq_twoDigits _ (by omega), pad2_eq_twoDigits _ (by omega),
    pad2_eq_twoDigits _ (by omega)]
  simp

theorem find_char (c : Char) :
    ∀ (x rest : List Char), (∀ a ∈ x, a ≠ c) → find [c] (x ++ c :: rest) = some x.length := by
  intro x
  induction x with
  | nil => intro rest _; simp [find]
  | cons a x ih =>
    intro rest h
    have ha : a ≠ c := h a (List.mem_cons_self _ _)
    have hp : List.isPrefixOf [c] (a :: (x ++ c :: rest)) = false := by
      simp [List.isPrefixOf, Ne.symm ha]
    rw [List.cons_append, find]
    simp only [hp, Bool.false_eq_true, if_false,
      ih rest (fun d hd => h d (List.mem_cons_of_mem _ hd))]
    rfl

theorem migrationId_of_sql (x : List Char) (h : ∀ c ∈ x, c ≠ '.') :
    migrationId (x ++ ".sql".toList) = x := by
  have e : x ++ ".sql".toList = x ++ '.' :: "sql".toList := rfl
  unfold migrationId
  rw [e, find_char '.' x _ h]
  simp [substr]

theorem digitChar_ne_dot (d : Nat) (h : d < 10) : digitChar d ≠ '.' := by
  intro e
  have := digitChar_toNat d h
  rw [e] at this
  have h2 : ('.' : Char).toNat = 46 := rfl
  omega

theorem twoDigits_ne_dot (v : Nat) (hv : v < 100) : ∀ c ∈ twoDigits v, c ≠ '.' := by
  intro c hc
  simp only [twoDigits, List.mem_cons, List.mem_singleton, List.not_mem_nil, or_false] at hc
  rcases hc with rfl | rfl
  · exact digitChar_ne_dot _ (by omega)
  · exact digitChar_ne_dot _ (Nat.mod_lt _ (by omega))

/-- The identifier of the file name of a well formed time, as digits. -/
theorem migrationId_createMigrationFilename (t : LocalTime) (h : t.wellFormed = true) :
    migrationId (createMigrationFilename t)
      = 'm' :: (twoDigits (t.year / 100) ++ (twoDigits (t.year % 100)
          ++ (twoDigits t.month ++ (twoDigits t.day ++ ('_' :: (twoDigits t.hour
          ++ (twoDigits t.minute ++ twoDigits t.second))))))) := by
  rw [createMigrationFilename_digits t h]
  simp only [LocalTime.wellFormed, Bool.and_eq_true, decide_eq_true_eq] at h
  obtain ⟨⟨⟨⟨⟨⟨⟨⟨y1, y2⟩, m1⟩, m2⟩, d1⟩, d2⟩, hh⟩, mi⟩, ss⟩ := h
  have e : 'm' :: (twoDigits (t.year / 100) ++ (twoDigits (t.year % 100)
          ++ (twoDigits t.month ++ (twoDigits t.day ++ ('_' :: (twoDigits t.hour
          ++ (twoDigits t.minute ++ (twoDigits t.second ++ ".sql".toList))))))))
      = ('m' :: (twoDigits (t.year / 100) ++ (twoDigits (t.year % 100)
          ++ (twoDigits t.month ++ (twoDigits t.day ++ ('_' :: (twoDigits t.hour
          ++ (twoDigits t.minute ++ twoDigits t.second)))))))) ++ ".sql".toList := by
    simp
  rw [e]
  apply migrationId_of_sql
  intro c hc
  simp only [List.mem_cons, List.mem_append] at hc
  rcases hc with rfl | hc | hc | hc | hc | rfl | hc | hc | hc
  · decide
  · exact twoDigits_ne_dot _ (by omega) c hc
  · exact twoDigits_ne_dot _ (Nat.mod_lt _ (by omega)) c hc
  · exact twoDigits_ne_dot _ (by omega) c hc
  · exact twoDigits_ne_dot _ (by omega) c hc
  · decide
  · exact twoDigits_ne_dot _ (by omega) c hc
  · exact twoDigits_ne_dot _ (by omega) c hc
  · exact twoDigits_ne_dot _ (by omega) c hc

theorem year_split (ya yb : Nat) (x : Bool) :
    (if ya / 100 < yb / 100 then true else if yb / 100 < ya / 100 then false
      else if ya % 100 < yb % 100 then true else if yb % 100 < ya % 100 then false else x)
      = (if ya < yb then true else if yb < ya then false else x) := by
  split_ifs <;> first | rfl | omega

theorem strLess_digits (a b : LocalTime) (ha : a.wellFormed = true) (hb : b.wellFormed = true)
    (tail : List Char) (htail : strLess tail tail = false) :
    strLess
      ('m' :: (twoDigits (a.year / 100) ++ (twoDigits (a.year % 100)
          ++ (twoDigits a.month ++ (twoDigits a.day ++ ('_' :: (twoDigits a.hour
          ++ (twoDigits a.minute ++ (twoDigits a.second ++ tail)))))))))
      ('m' :: (twoDigits (b.year / 100) ++ (twoDigits (b.year % 100)
          ++ (twoDigits b.month ++ (twoDigits b.day ++ ('_' :: (twoDigits b.hour
          ++ (twoDigits b.minute ++ (twoDigits b.second ++ tail)))))))))
      = a.before b := by
  simp only [LocalTime.wellFormed, Bool.and_eq_true, decide_eq_true_eq] at ha hb
  obtain ⟨⟨⟨⟨⟨⟨⟨⟨ay1, ay2⟩, am1⟩, am2⟩, ad1⟩, ad2⟩, ah⟩, ami⟩, asec⟩ := ha
  obtain ⟨⟨⟨⟨⟨⟨⟨⟨by1, by2⟩, bm1⟩, bm2⟩, bd1⟩, bd2⟩, bh⟩, bmi⟩, bsec⟩ := hb
  rw [strLess_same_head,
    strLess_twoDigits _ _ _ _ (by omega) (by omega),
    strLess_twoDigits _ _ _ _ (Nat.mod_lt _ (by omega)) (Nat.mod_lt _ (by omega)),
    strLess_twoDigits _ _ _ _ (by omega) (by omega),
    strLess_twoDigits _ _ _ _ (by omega) (by omega),
    strLess_same_head,
    strLess_twoDigits _ _ _ _ (by omega) (by omega),
    strLess_twoDigits _ _ _ _ (by omega) (by omega),
    strLess_twoDigits _ _ _ _ (by omega) (by omega), htail, year_split]
  unfold LocalTime.before
  simp only [ite_self]

/-- C14: for two local times with a year of four digits and fields in range, the
identifier that `createMigration` makes for the earlier one is below the one for
the later one in the order of strings, and equal times give equal identifiers.
So the order of the identifiers, and of the file names in the catalog, is the
order of the times of creation. -/
theorem identifier_order_is_time_order (a b : LocalTime)
    (ha : a.wellFormed = true) (hb : b.wellFormed = true) :
    (a.before b = true →
      strLess (migrationId (createMigrationFilename a))
        (migrationId (createMigrationFilename b)) = true)
    ∧ (a = b →
      migrationId (createMigrationFilename a) = migrationId (createMigrationFilename b))
    ∧ (strLess (migrationId (createMigrationFilename a))
        (migrationId (createMigrationFilename b)) = a.before b)
    ∧ (strLess (createMigrationFilename a) (createMigrationFilename b) = a.before b) := by
  have hid : strLess (migrationId (createMigrationFilename a))
      (migrationId (createMigrationFilename b)) = a.before b := by
    rw [migrationId_createMigrationFilename a ha, migrationId_createMigrationFilename b hb]
    have h := strLess_digits a b ha hb [] rfl
    simpa using h
  refine ⟨fun h => by rw [hid, h], fun h => by rw [h], hid, ?_⟩
  rw [createMigrationFilename_digits a ha, createMigrationFilename_digits b hb]
  exact strLess_digits a b ha hb _ (strLess_irrefl _)

theorem identifier_order_is_time_order_witness :
    strLess (migrationId (createMigrationFilename ⟨2024, 1, 31, 23, 59, 59⟩))
        (migrationId (createMigrationFilename ⟨2024, 2, 1, 0, 0, 0⟩)) = true :=
  (identifier_order_is_time_order ⟨2024, 1, 31, 23, 59, 59⟩ ⟨2024, 2, 1, 0, 0, 0⟩
    (by decide) (by decide)).1 (by decide)

/-! ## Claim on applying and reverting one migration -/

theorem downMigrationId_downPath (id : List Char) (hdot : ∀ c ∈ id, c ≠ '.')
    (hlen : id.length + 11 < 18446744073709551616) :
    downMigrationId (downPath id) = id := by
  have e1 : downPath id = "migrations".toList ++ '/' :: (id ++ ".sql".toList) := by
    simp [downPath]
  have e2 : downPath id = ("migrations/".toList ++ id) ++ '.' :: "sql".toList := by
    simp [downPath]
  have h1 : find ['/'] (downPath id) = some 10 := by
    rw [e1, find_char '/' "migrations".toList _ (by decide)]
    rfl
  have h2 : find ['.'] (downPath id) = some (11 + id.length) := by
    rw [e2, find_char '.' ("migrations/".toList ++ id) _ ?_]
    · simp; omega
    · intro a ha
      rw [List.mem_append] at ha
      rcases ha with ha | ha
      · revert a; decide
      · exact hdot a ha
  unfold downMigrationId
  simp only [h1, h2, sizeT]
  have a1 : (10 + 1) % 18446744073709551616 = 11 := by norm_num
  have a2 : (11 + id.length + 18446744073709551616 - 10 + 18446744073709551615)
      % 18446744073709551616 = id.length := by omega
  rw [a1, a2]
  have e3 : downPath id = "migrations/".toList ++ (id ++ ".sql".toList) := by
    simp [downPath]
  rw [e3]
  have : ("migrations/".toList ++ (id ++ ".sql".toList)).drop 11 = id ++ ".sql".toList := rfl
  rw [this]
  simp

theorem execute_accepted {σ ε : Type} (execute : σ → List Char → σ × Option ε) (s : σ)
    (q : List Char) (h : (execute s q).2 = none) :
    execute s q = ((execute s q).1, none) := by
  rw [← h]

/-- Statements that are all accepted and leave the rows as they are, followed by
other statements. -/
theorem applyQueries_neutral {σ ε : Type} (D : Database σ ε) :
    ∀ (a : List (List Char)) (s : σ) (b : List (List Char)),
      (∀ q ∈ a, ∀ t, (D.execute t q).2 = none ∧ D.rows (D.execute t q).1 = D.rows t) →
      applyQueries D.execute s (a ++ b)
        = ⟨(applyQueries D.execute (stateAfter D.execute s a) b).db,
            a.map (fun q => (q, true))
              ++ (applyQueries D.execute (stateAfter D.execute s a) b).executed,
            (applyQueries D.execute (stateAfter D.execute s a) b).outcome⟩
      ∧ D.rows (stateAfter D.execute s a) = D.rows s := by
  intro a
  induction a with
  | nil => intro s b _; simp [stateAfter]
  | cons q a ih =>
    intro s b h
    obtain ⟨h1, h2⟩ := h q (List.mem_cons_self _ _) s
    obtain ⟨i1, i2⟩ := ih (D.execute s q).1 b (fun x hx => h x (List.mem_cons_of_mem _ hx))
    constructor
    · rw [List.cons_append, applyQueries, execute_accepted D.execute s q h1]
      simp only
      rw [i1]
      simp [stateAfter]
    · simp only [stateAfter, List.foldl_cons] at i2 ⊢
      rw [i2, h2]

/-- The plan when every catalog entry but the last one is applied. -/
theorem migrateUpPlan_single_pending (applied : List (List Char)) (f : List Char)
    (count : Nat)
    (hlen : (applied ++ [f]).length < 4294967296) (hcount : count < 4294967296)
    (hs : (applied ++ [f]).Pairwise
      (fun a b => strLess (migrationId a) (migrationId b) = true))
    (hids : ∀ g ∈ applied ++ [f], migrationId g ≠ []) :
    migrateUpPlan
        (lastMigrationIdOf ((applied.map migrationId).reverse.length % 4294967296)
          (((applied.map migrationId).reverse.take 1).headD []))
        count (applied ++ [f])
      = some [f] := by
  rcases List.eq_nil_or_concat applied with rfl | ⟨init, e, rfl⟩
  · simp only [List.map_nil, List.reverse_nil, List.length_nil, Nat.zero_mod,
      lastMigrationIdOf, ne_eq, not_true_eq_false, if_false, List.nil_append]
    unfold migrateUpPlan
    simp only [beq_self_eq_true, List.length_singleton]
    by_cases hc : count = 0
    · subst hc
      rw [filterLoop_filtered [] 2 [f] 0 0 _ (by simp) (by simp) (by simp) (by omega)
        (by simp)]
      simp
    · have hb : (count == 0) = false := by simpa using hc
      simp only [hb, Bool.false_eq_true, if_false]
      rw [filterLoop_filtered [] 2 [f] 0 0 count (by simp) (by omega) hcount (by omega)
        (by simp)]
      by_cases h1 : count ≤ 1
      · have : count = 1 := by omega
        subst this
        simp
      · simp [h1]
  · simp only [List.concat_eq_append] at hlen hs hids ⊢
    have hlen2 : init.length + 1 + 1 < 4294967296 := by simpa using hlen
    have hmod : ((List.map migrationId (init ++ [e])).reverse.length) % 4294967296
        = init.length + 1 := by
      simp; omega
    have hhead : (((List.map migrationId (init ++ [e])).reverse.take 1).headD [])
        = migrationId e := by simp
    have hne : migrationId e ≠ [] := hids e (by simp)
    have hl : lastMigrationIdOf (init.length + 1) (migrationId e) = migrationId e := by
      simp [lastMigrationIdOf]
    rw [hmod, hhead, hl]
    have ecat : init ++ [e] ++ [f] = init ++ e :: [f] := by simp
    rw [ecat] at hs hlen ⊢
    have hmid : ∀ g ∈ init, migrationId e ≠ migrationId g := by
      intro g hg heq
      have h1 := (List.pairwise_append.mp hs).2.2 g hg e (List.mem_cons_self _ _)
      rw [← heq, strLess_irrefl] at h1
      exact Bool.false_ne_true h1
    rw [migrateUpPlan_after_last (migrationId e) count init e [f] hlen hcount hne hmid rfl]
    have : ¬ (count ≠ 0 ∧ count ≤ [f].length - (init.length + 1)) := by
      simp only [List.length_singleton]
      omega
    simp only [this, if_false]
/-- C11: let the tracking table hold the identifiers of the catalog entries before
the last one, and let the last entry `<id>.sql` (no `.` in `id`) have both
blocks, with statements that the database accepts and that leave the rows of the
tracking table as they are. Then a confirmed `up` executes the insert of `id`
and the statements of the UP block and leaves `id` as the newest row, and a
confirmed `down 1` after it selects that row, finds `id` again in the path
`migrations/<id>.sql`, executes the statements of the DOWN block and the delete
of `id`, and leaves the rows of the tracking table as they were before `up`. -/
theorem up_then_down_restores {σ ε : Type} (D : Database σ ε)
    (applied : List (List Char)) (id text : List Char) (ups downs : List (List Char))
    (delimiter1 : List Char) (readFile : List Char → Option (List Char))
    (confirmUp confirmDown : List Char → Bool) (count : Nat) (db : σ)
    (hlen : (applied ++ [id ++ ".sql".toList]).length < 4294967296)
    (hcount : count < 4294967296)
    (hs : (applied ++ [id ++ ".sql".toList]).Pairwise
      (fun a b => strLess (migrationId a) (migrationId b) = true))
    (hids : ∀ g ∈ applied ++ [id ++ ".sql".toList], migrationId g ≠ [])
    (hdot : ∀ c ∈ id, c ≠ '.')
    (hidlen : id.length + 11 < 18446744073709551616)
    (hrows : D.rows db = (applied.map migrationId).reverse)
    (hcreate : ∀ s, (D.execute s createTableQuery).2 = none
      ∧ D.rows (D.execute s createTableQuery).1 = D.rows s)
    (hinsert : ∀ s, (∀ x ∈ D.rows s, strLess x id = true) →
      (D.execute s (insertQuery id)).2 = none
      ∧ D.rows (D.execute s (insertQuery id)).1 = id :: D.rows s)
    (hdelete : ∀ s, (D.execute s (deleteQuery id)).2 = none
      ∧ D.rows (D.execute s (deleteQuery id)).1 = (D.rows s).filter (fun x => x != id))
    (hother : ∀ q ∈ ups ++ downs, ∀ s, (D.execute s q).2 = none
      ∧ D.rows (D.execute s q).1 = D.rows s)
    (hread : readFile ("migrations/".toList ++ (id ++ ".sql".toList)) = some text)
    (hup : prepareUp id [';'] (fileLines text)
      = Prepared.queries (insertQuery id :: ups) delimiter1)
    (hdown : prepareDown id (fileLines text) = some (downs ++ [deleteQuery id]))
    (hyesUp : ∀ p, confirmUp p = true) (hyesDown : ∀ p, confirmDown p = true) :
    (migrateUp D true (applied ++ [id ++ ".sql".toList]) readFile confirmUp count db).executed
      = (createTableQuery, true) :: (insertQuery id, true) :: ups.map (fun q => (q, true))
    ∧ (migrateUp D true (applied ++ [id ++ ".sql".toList]) readFile confirmUp count
        db).ending = Ending.ran Outcome.allDone
    ∧ D.rows (migrateUp D true (applied ++ [id ++ ".sql".toList]) readFile confirmUp count
        db).db = id :: D.rows db
    ∧ (migrateDown D true readFile confirmDown 1
        (migrateUp D true (applied ++ [id ++ ".sql".toList]) readFile confirmUp count
          db).db).executed
      = (createTableQuery, true) :: (downs.map (fun q => (q, true))
          ++ [(deleteQuery id, true)])
    ∧ (migrateDown D true readFile confirmDown 1
        (migrateUp D true (applied ++ [id ++ ".sql".toList]) readFile confirmUp count
          db).db).ending = Ending.ran Outcome.allDone
    ∧ D.rows (migrateDown D true readFile confirmDown 1
        (migrateUp D true (applied ++ [id ++ ".sql".toList]) readFile confirmUp count
          db).db).db = D.rows db := by
  -- facts on the identifier and the rows
  have hmid : migrationId (id ++ ".sql".toList) = id := migrationId_of_sql id hdot
  have hbelow : ∀ x ∈ D.rows db, strLess x id = true := by
    intro x hx
    rw [hrows, List.mem_reverse, List.mem_map] at hx
    obtain ⟨g, hg, rfl⟩ := hx
    have := (List.pairwise_append.mp hs).2.2 g hg (id ++ ".sql".toList) (by simp)
    rwa [hmid] at this
  have hnotin : (D.rows db).filter (fun x => x != id) = D.rows db := by
    rw [List.filter_eq_self]
    intro x hx
    have h1 := hbelow x hx
    simp only [bne_iff_ne, ne_eq]
    intro heq
    rw [heq, strLess_irrefl] at h1
    exact Bool.false_ne_true h1
  have hrowslen : (D.rows db).length + 1 < 4294967296 := by
    rw [hrows]
    simpa using hlen
  -- the up run
  have hplan := migrateUpPlan_single_pending applied (id ++ ".sql".toList) count hlen
    hcount hs hids
  have hupsN : ∀ q ∈ ups, ∀ t, (D.execute t q).2 = none
      ∧ D.rows (D.execute t q).1 = D.rows t :=
    fun q hq => hother q (List.mem_append_left _ hq)
  have hdownsN : ∀ q ∈ downs, ∀ t, (D.execute t q).2 = none
      ∧ D.rows (D.execute t q).1 = D.rows t :=
    fun q hq => hother q (List.mem_append_right _ hq)
  have hc1 := hcreate db
  have hrows1 : D.rows (D.execute db createTableQuery).1 = (applied.map migrationId).reverse := by
    rw [hc1.2, hrows]
  have hi1 := hinsert (D.execute db createTableQuery).1 (by rw [hc1.2]; exact hbelow)
  have hn1 := applyQueries_neutral D ups
    (D.execute (D.execute db createTableQuery).1 (insertQuery id)).1 [] hupsN
  have hrunUp : migrateUpApply readFile D.execute [id ++ ".sql".toList] [';']
        (D.execute db createTableQuery).1
      = ⟨stateAfter D.execute
            (D.execute (D.execute db createTableQuery).1 (insertQuery id)).1 ups,
          (insertQuery id, true) :: ups.map (fun q => (q, true)), Outcome.allDone⟩ := by
    rw [migrateUpApply, hread]
    simp only [hmid, hup]
    rw [applyQueries, execute_accepted D.execute _ _ hi1.1]
    simp only
    have := hn1.1
    rw [List.append_nil] at this
    rw [this]
    simp [applyQueries, migrateUpApply]
  have hsUp : migrateUp D true (applied ++ [id ++ ".sql".toList]) readFile confirmUp count db
      = ⟨stateAfter D.execute
            (D.execute (D.execute db createTableQuery).1 (insertQuery id)).1 ups,
          (createTableQuery, true) :: (insertQuery id, true) :: ups.map (fun q => (q, true)),
          some (upPrompt [id ++ ".sql".toList]), Ending.ran Outcome.allDone⟩ := by
    unfold migrateUp
    simp only [Bool.not_true, Bool.false_eq_true, if_false]
    rw [execute_accepted D.execute _ _ hc1.1]
    simp only [hrows1, hplan, noMigrationsAvailable, List.length_singleton, hyesUp, hrunUp]
    rfl
  have hrowsUp : D.rows (stateAfter D.execute
      (D.execute (D.execute db createTableQuery).1 (insertQuery id)).1 ups)
        = id :: D.rows db := by
    rw [hn1.2, hi1.2, hc1.2]
  -- the down run
  have hc2 := hcreate (stateAfter D.execute
      (D.execute (D.execute db createTableQuery).1 (insertQuery id)).1 ups)
  have hrows2 : D.rows (D.execute (stateAfter D.execute
      (D.execute (D.execute db createTableQuery).1 (insertQuery id)).1 ups)
        createTableQuery).1 = id :: D.rows db := by
    rw [hc2.2, hrowsUp]
  have hn2 := applyQueries_neutral D downs (D.execute (stateAfter D.execute
      (D.execute (D.execute db createTableQuery).1 (insertQuery id)).1 ups)
        createTableQuery).1 [deleteQuery id] hdownsN
  have hd2 := hdelete (stateAfter D.execute (D.execute (stateAfter D.execute
      (D.execute (D.execute db createTableQuery).1 (insertQuery id)).1 ups)
        createTableQuery).1 downs)
  have hpath : downPath id = "migrations/".toList ++ (id ++ ".sql".toList) := by
    simp [downPath]
  have hrunDown : migrateDownApply readFile D.execute [downPath id]
        (D.execute (stateAfter D.execute
          (D.execute (D.execute db createTableQuery).1 (insertQuery id)).1 ups)
            createTableQuery).1
      = ⟨(D.execute (stateAfter D.execute (D.execute (stateAfter D.execute
            (D.execute (D.execute db createTableQuery).1 (insertQuery id)).1 ups)
              createTableQuery).1 downs) (deleteQuery id)).1,
          downs.map (fun q => (q, true)) ++ [(deleteQuery id, true)],
          Outcome.allDone⟩ := by
    rw [migrateDownApply, downMigrationId_downPath id hdot hidlen, hpath, hread]
    simp only [hdown]
    rw [hn2.1]
    simp only [applyQueries]
    rw [execute_accepted D.execute _ _ hd2.1]
    simp [migrateDownApply]
  have hsDown : migrateDown D true readFile confirmDown 1 (stateAfter D.execute
        (D.execute (D.execute db createTableQuery).1 (insertQuery id)).1 ups)
      = ⟨(D.execute (stateAfter D.execute (D.execute (stateAfter D.execute
            (D.execute (D.execute db createTableQuery).1 (insertQuery id)).1 ups)
              createTableQuery).1 downs) (deleteQuery id)).1,
          (createTableQuery, true) :: (downs.map (fun q => (q, true))
            ++ [(deleteQuery id, true)]),
          some (downPrompt ((D.rows db).length + 1) 1), Ending.ran Outcome.allDone⟩ := by
    unfold migrateDown
    simp only [Bool.not_true, Bool.false_eq_true, if_false]
    rw [execute_accepted D.execute _ _ hc2.1]
    have hmod : ((D.rows db).length + 1) % 4294967296 = (D.rows db).length + 1 := by omega
    have hgt : ¬ (1 > (D.rows db).length + 1) := by omega
    simp only [hrows2, List.take_succ_cons, List.take_zero, List.map_cons, List.map_nil,
      List.length_cons, List.length_nil, hmod, hgt, if_false, hyesDown, hrunDown]
    rfl
  have hrowsDown : D.rows (D.execute (stateAfter D.execute (D.execute (stateAfter D.execute
      (D.execute (D.execute db createTableQuery).1 (insertQuery id)).1 ups)
        createTableQuery).1 downs) (deleteQuery id)).1 = D.rows db := by
    rw [hd2.2, hn2.2, hrows2]
    simp only [List.filter_cons, bne_self_eq_false, Bool.false_eq_true, if_false]
    exact hnotin
  rw [hsUp]
  simp only [hsDown, hrowsUp, hrowsDown, and_self]
theorem up_then_down_restores_witness :
    trackingDatabase.rows (migrateDown trackingDatabase true
        (twoFiles "-- UP\nCREATE TABLE s(w INT);\n-- DOWN\nDROP TABLE s;\n".toList
          "-- UP\nCREATE TABLE t(x INT);\n-- DOWN\nDROP TABLE t;\n".toList)
        (fun _ => true) 1
        (migrateUp trackingDatabase true
          (["m20240101_000000.sql".toList] ++ ["m20240102_000000".toList ++ ".sql".toList])
          (twoFiles "-- UP\nCREATE TABLE s(w INT);\n-- DOWN\nDROP TABLE s;\n".toList
            "-- UP\nCREATE TABLE t(x INT);\n-- DOWN\nDROP TABLE t;\n".toList)
          (fun _ => true) 0 ["m20240101_000000".toList]).db).db
      = trackingDatabase.rows ["m20240101_000000".toList] :=
  (up_then_down_restores trackingDatabase ["m20240101_000000.sql".toList]
    "m20240102_000000".toList "-- UP\nCREATE TABLE t(x INT);\n-- DOWN\nDROP TABLE t;\n".toList
    ["CREATE TABLE t(x INT);\n".toList] ["DROP TABLE t;\n".toList] [';']
    (twoFiles "-- UP\nCREATE TABLE s(w INT);\n-- DOWN\nDROP TABLE s;\n".toList
      "-- UP\nCREATE TABLE t(x INT);\n-- DOWN\nDROP TABLE t;\n".toList)
    (fun _ => true) (fun _ => true) 0 ["m20240101_000000".toList]
    (by decide) (by decide) (by decide) (by decide) (by decide) (by decide) (by decide)
    (fun s => ⟨rfl, rfl⟩)
    (fun s h => by
      have hn : "m20240102_000000".toList ∉ s := by
        intro hm
        have h1 := h _ hm
        rw [strLess_irrefl] at h1
        exact Bool.false_ne_true h1
      have e : trackingExecute (fun _ => true) s (insertQuery "m20240102_000000".toList)
          = if "m20240102_000000".toList ∈ s then (s, some ())
            else ("m20240102_000000".toList :: s, none) := rfl
      simp only [trackingDatabase, e, hn, if_false, and_self])
    (fun s => ⟨rfl, rfl⟩)
    (fun q hq s => by
      simp only [List.mem_append, List.mem_singleton] at hq
      rcases hq with rfl | rfl
      · exact ⟨rfl, rfl⟩
      · exact ⟨rfl, rfl⟩)
    (by decide) (by decide) (by decide) (fun _ => rfl) (fun _ => rfl)).2.2.2.2.2

/-! ## Claims on the statement lists, with the text of the tracking statements -/

/-- C19: the text written by `createMigration` is `-- UP`, an empty line,
`-- DOWN`, an empty line. It has both blocks and no statement: whatever the
identifier and the delimiter active at its start, its statement list for
`migrateUp` is the one statement `INSERT INTO migrations VALUES ("id");` and the
one for `migrateDown` the one statement `DELETE FROM migrations WHERE id = "id";`,
as evaluated for `m20240101_000000`. -/
theorem template_batches (id delimiter : List Char) :
    createMigrationTemplate = "-- UP\n\n-- DOWN\n\n".toList
    ∧ prepareUp id delimiter (fileLines createMigrationTemplate)
      = Prepared.queries
          ["INSERT INTO `migrations` VALUES (".toList ++ Char.ofNat 34 :: id
            ++ Char.ofNat 34 :: ");".toList] delimiter
    ∧ prepareDown id (fileLines createMigrationTemplate)
      = some ["DELETE FROM `migrations` WHERE `id` = ".toList ++ Char.ofNat 34 :: id
            ++ Char.ofNat 34 :: ";".toList]
    ∧ prepareUp "m20240101_000000".toList "$$".toList
        (fileLines "-- UP\n\n-- DOWN\n\n".toList)
      = Prepared.queries
          ["INSERT INTO `migrations` VALUES (\"m20240101_000000\");".toList] "$$".toList
    ∧ prepareDown "m20240101_000000".toList (fileLines "-- UP\n\n-- DOWN\n\n".toList)
      = some ["DELETE FROM `migrations` WHERE `id` = \"m20240101_000000\";".toList] := by
  have h := prepare_template id delimiter
  exact ⟨by decide, h.1, h.2, by decide, by decide⟩

/-! ## Claim on the order of execution, with the statements that are executed -/

/-- The statements are executed to the last one, or to the first one that the
database rejects. -/
theorem applyQueries_complete {σ ε : Type} (execute : σ → List Char → σ × Option ε) :
    ∀ (qs : List (List Char)) (db : σ),
      ((applyQueries execute db qs).outcome = Outcome.allDone
        ∧ (applyQueries execute db qs).executed = qs.map (fun q => (q, true)))
      ∨ ∃ pre q post e, qs = pre ++ q :: post
          ∧ (applyQueries execute db qs).executed
              = pre.map (fun q => (q, true)) ++ [(q, false)]
          ∧ (execute (stateAfter execute db pre) q).2 = some e
          ∧ (applyQueries execute db qs).outcome = Outcome.failed q e := by
  intro qs
  induction qs with
  | nil => intro db; left; simp [applyQueries]
  | cons x qs ih =>
    intro db
    rcases hx : execute db x with ⟨db1, _ | e⟩
    · rcases ih db1 with ⟨h1, h2⟩ | ⟨pre, q, post, e, h1, h2, h3, h4⟩
      · left
        simp [applyQueries, hx, h1, h2]
      · right
        refine ⟨x :: pre, q, post, e, by simp [h1], ?_, ?_, ?_⟩
        · simp [applyQueries, hx, h2]
        · simpa [stateAfter, hx] using h3
        · simp [applyQueries, hx, h4]
    · right
      exact ⟨[], x, qs, e, rfl, by simp [applyQueries, hx], by simp [stateAfter, hx],
        by simp [applyQueries, hx]⟩

theorem applyQueries_db {σ ε : Type} (execute : σ → List Char → σ × Option ε)
    (qs : List (List Char)) (db : σ)
    (hex : (applyQueries execute db qs).executed = qs.map (fun q => (q, true))) :
    (applyQueries execute db qs).db = stateAfter execute db qs := by
  have h := (applyQueries_spec execute qs db).2.2.1
  rw [hex] at h
  simpa [Function.comp_def] using h

theorem migrateUpApply_complete {σ ε : Type} (readFile : List Char → Option (List Char))
    (execute : σ → List Char → σ × Option ε) :
    ∀ (plan : List (List Char)) (delimiter : List Char) (db : σ),
      ((∀ q e, (migrateUpApply readFile execute plan delimiter db).outcome
            ≠ Outcome.failed q e)
        ∧ (migrateUpApply readFile execute plan delimiter db).executed
            = (upStatements readFile plan delimiter).map (fun q => (q, true)))
      ∨ ∃ pre q post e, upStatements readFile plan delimiter = pre ++ q :: post
          ∧ (migrateUpApply readFile execute plan delimiter db).executed
              = pre.map (fun q => (q, true)) ++ [(q, false)]
          ∧ (execute (stateAfter execute db pre) q).2 = some e
          ∧ (migrateUpApply readFile execute plan delimiter db).outcome
              = Outcome.failed q e := by
  intro plan
  induction plan with
  | nil => intro delimiter db; left; simp [migrateUpApply, upStatements]
  | cons m rest ih =>
    intro delimiter db
    rw [migrateUpApply, upStatements]
    cases hr : readFile ("migrations/".toList ++ m) with
    | none => left; simp
    | some text =>
      simp only
      cases hp : prepareUp (migrationId m) delimiter (fileLines text) with
      | blockNotFound => left; simp
      | noReturn => left; simp
      | queries qs d1 =>
        simp only
        rcases applyQueries_complete execute qs db with
          ⟨ho, hex⟩ | ⟨pre, q, post, e, h1, h2, h3, h4⟩
        · have hdb := applyQueries_db execute qs db hex
          simp only [ho]
          rcases ih d1 (applyQueries execute db qs).db with
            ⟨i1, i2⟩ | ⟨pre, q, post, e, j1, j2, j3, j4⟩
          · left
            exact ⟨i1, by rw [hex, i2, List.map_append]⟩
          · right
            refine ⟨qs ++ pre, q, post, e, by rw [j1, List.append_assoc], ?_, ?_, j4⟩
            · rw [hex, j2, List.map_append, List.append_assoc]
            · rw [stateAfter_append, ← hdb]
              exact j3
        · right
          simp only [h4]
          exact ⟨pre, q, post ++ upStatements readFile rest d1, e,
            by rw [h1]; simp, h2, h3, rfl⟩

theorem migrateDownApply_complete {σ ε : Type} (readFile : List Char → Option (List Char))
    (execute : σ → List Char → σ × Option ε) :
    ∀ (plan : List (List Char)) (db : σ),
      ((∀ q e, (migrateDownApply readFile execute plan db).outcome ≠ Outcome.failed q e)
        ∧ (migrateDownApply readFile execute plan db).executed
            = (downStatements readFile plan).map (fun q => (q, true)))
      ∨ ∃ pre q post e, downStatements readFile plan = pre ++ q :: post
          ∧ (migrateDownApply readFile execute plan db).executed
              = pre.map (fun q => (q, true)) ++ [(q, false)]
          ∧ (execute (stateAfter execute db pre) q).2 = some e
          ∧ (migrateDownApply readFile execute plan db).outcome = Outcome.failed q e := by
  intro plan
  induction plan with
  | nil => intro db; left; simp [migrateDownApply, downStatements]
  | cons m rest ih =>
    intro db
    rw [migrateDownApply, downStatements]
    cases hr : readFile m with
    | none => left; simp
    | some text =>
      simp only
      cases hp : prepareDown (downMigrationId m) (fileLines text) with
      | none => left; simp
      | some qs =>
        simp only
        rcases applyQueries_complete execute qs db with
          ⟨ho, hex⟩ | ⟨pre, q, post, e, h1, h2, h3, h4⟩
        · have hdb := applyQueries_db execute qs db hex
          simp only [ho]
          rcases ih (applyQueries execute db qs).db with
            ⟨i1, i2⟩ | ⟨pre, q, post, e, j1, j2, j3, j4⟩
          · left
            exact ⟨i1, by rw [hex, i2, List.map_append]⟩
          · right
            refine ⟨qs ++ pre, q, post, e, by rw [j1, List.append_assoc], ?_, ?_, j4⟩
            · rw [hex, j2, List.map_append, List.append_assoc]
            · rw [stateAfter_append, ← hdb]
              exact j3
        · right
          simp only [h4]
          exact ⟨pre, q, post ++ downStatements readFile rest, e,
            by rw [h1]; simp, h2, h3, rfl⟩

/-- C6: in every up run and every down run the statements of the planned files,
taken in plan order and in the order of each file, are handed to the database
one after the other, each in the state left by the one before it. Either the
database rejects none and every one of them is executed, or it rejects one: then
exactly the statements before that one were executed and accepted, that one was
handed over and rejected, the run ends as failed with it, and no statement after
it is executed, neither of the same migration nor of a later one. -/
theorem statements_sequential_until_rejected {σ ε : Type}
    (readFile : List Char → Option (List Char))
    (execute : σ → List Char → σ × Option ε)
    (plan : List (List Char)) (delimiter : List Char) (db : σ) :
    (Sequential execute db (migrateUpApply readFile execute plan delimiter db).executed
      ∧ (migrateUpApply readFile execute plan delimiter db).executed.map Prod.fst
          <+: upStatements readFile plan delimiter
      ∧ (migrateUpApply readFile execute plan delimiter db).db
          = stateAfter execute db
              ((migrateUpApply readFile execute plan delimiter db).executed.map Prod.fst)
      ∧ (((∀ q e, (migrateUpApply readFile execute plan delimiter db).outcome
              ≠ Outcome.failed q e)
          ∧ (migrateUpApply readFile execute plan delimiter db).executed
              = (upStatements readFile plan delimiter).map (fun q => (q, true)))
        ∨ ∃ pre q post e, upStatements readFile plan delimiter = pre ++ q :: post
            ∧ (migrateUpApply readFile execute plan delimiter db).executed
                = pre.map (fun q => (q, true)) ++ [(q, false)]
            ∧ (execute (stateAfter execute db pre) q).2 = some e
            ∧ (migrateUpApply readFile execute plan delimiter db).outcome
                = Outcome.failed q e))
    ∧ (Sequential execute db (migrateDownApply readFile execute plan db).executed
      ∧ (migrateDownApply readFile execute plan db).executed.map Prod.fst
          <+: downStatements readFile plan
      ∧ (migrateDownApply readFile execute plan db).db
          = stateAfter execute db
              ((migrateDownApply readFile execute plan db).executed.map Prod.fst)
      ∧ (((∀ q e, (migrateDownApply readFile execute plan db).outcome
              ≠ Outcome.failed q e)
          ∧ (migrateDownApply readFile execute plan db).executed
              = (downStatements readFile plan).map (fun q => (q, true)))
        ∨ ∃ pre q post e, downStatements readFile plan = pre ++ q :: post
            ∧ (migrateDownApply readFile execute plan db).executed
                = pre.map (fun q => (q, true)) ++ [(q, false)]
            ∧ (execute (stateAfter execute db pre) q).2 = some e
            ∧ (migrateDownApply readFile execute plan db).outcome
                = Outcome.failed q e)) :=
  ⟨⟨(migrateUpApply_spec readFile execute plan delimiter db).1,
     (migrateUpApply_spec readFile execute plan delimiter db).2.1,
     (migrateUpApply_spec readFile execute plan delimiter db).2.2,
     migrateUpApply_complete readFile execute plan delimiter db⟩,
   ⟨(migrateDownApply_spec readFile execute plan db).1,
     (migrateDownApply_spec readFile execute plan db).2.1,
     (migrateDownApply_spec readFile execute plan db).2.2,
     migrateDownApply_complete readFile execute plan db⟩⟩

/-! ## Claim on a planned file without the marker of the direction -/

/-- C10: when the file of a planned migration has no line with the marker of the
direction, the run ends there with the block reported as not found; the
statements handed to the database and the database state are those of the run
over the migrations planned before it, so nothing is executed for that migration
or a later one. The first half is `migrateUp` and a file without the UP marker,
the second `migrateDown` and a file without the DOWN marker; neither needs
anything of the other direction. -/
theorem missing_marker_stops_run {σ ε : Type} (readFile : List Char → Option (List Char))
    (execute : σ → List Char → σ × Option ε) :
    (∀ (m text : List Char) (later : List (List Char)),
      readFile ("migrations/".toList ++ m) = some text →
      (∀ l ∈ fileLines text, containsStr l upMarker = false) →
      ∀ (before : List (List Char)) (delimiter : List Char) (db : σ),
        (migrateUpApply readFile execute (before ++ m :: later) delimiter db).db
            = (migrateUpApply readFile execute before delimiter db).db
        ∧ (migrateUpApply readFile execute (before ++ m :: later) delimiter db).executed
            = (migrateUpApply readFile execute before delimiter db).executed
        ∧ ((migrateUpApply readFile execute before delimiter db).outcome
              = Outcome.allDone →
            (migrateUpApply readFile execute (before ++ m :: later) delimiter db).outcome
              = Outcome.blockNotFound (migrationId m)))
    ∧ (∀ (path textDown : List Char) (laterDown : List (List Char)),
      readFile path = some textDown →
      (∀ l ∈ fileLines textDown, containsStr l downMarker = false) →
      ∀ (before : List (List Char)) (db : σ),
        (migrateDownApply readFile execute (before ++ path :: laterDown) db).db
            = (migrateDownApply readFile execute before db).db
        ∧ (migrateDownApply readFile execute (before ++ path :: laterDown) db).executed
            = (migrateDownApply readFile execute before db).executed
        ∧ ((migrateDownApply readFile execute before db).outcome = Outcome.allDone →
            (migrateDownApply readFile execute (before ++ path :: laterDown) db).outcome
              = Outcome.blockNotFound (downMigrationId path))) :=
  ⟨fun m text later hread hup =>
      missing_up_marker_stops readFile execute m text later hread hup,
   fun path textDown laterDown hreadDown hdown =>
      missing_down_marker_stops readFile execute path textDown laterDown hreadDown hdown⟩

theorem missing_marker_stops_run_witness :
    ((migrateUpApply missingUpDirectory acceptAll
          (["m20240101_000000.sql".toList] ++ "m20240102_000000.sql".toList
            :: ["m20240103_000000.sql".toList]) [';'] ()).executed
        = (migrateUpApply missingUpDirectory acceptAll ["m20240101_000000.sql".toList]
            [';'] ()).executed
      ∧ (migrateUpApply missingUpDirectory acceptAll
          (["m20240101_000000.sql".toList] ++ "m20240102_000000.sql".toList
            :: ["m20240103_000000.sql".toList]) [';'] ()).outcome
        = Outcome.blockNotFound (migrationId "m20240102_000000.sql".toList))
    ∧ ((migrateDownApply missingDownDirectory acceptAll
          (["migrations/m20240103_000000.sql".toList]
            ++ "migrations/m20240102_000000.sql".toList
            :: ["migrations/m20240101_000000.sql".toList]) ()).executed
        = (migrateDownApply missingDownDirectory acceptAll
            ["migrations/m20240103_000000.sql".toList] ()).executed
      ∧ (migrateDownApply missingDownDirectory acceptAll
          (["migrations/m20240103_000000.sql".toList]
            ++ "migrations/m20240102_000000.sql".toList
            :: ["migrations/m20240101_000000.sql".toList]) ()).outcome
        = Outcome.blockNotFound (downMigrationId "migrations/m20240102_000000.sql".toList)) :=
  ⟨⟨((missing_marker_stops_run missingUpDirectory acceptAll).1
        "m20240102_000000.sql".toList "-- DOWN\nDROP TABLE u;\n".toList
        ["m20240103_000000.sql".toList] (by decide) (by decide)
        ["m20240101_000000.sql".toList] [';'] ()).2.1,
     ((missing_marker_stops_run missingUpDirectory acceptAll).1
        "m20240102_000000.sql".toList "-- DOWN\nDROP TABLE u;\n".toList
        ["m20240103_000000.sql".toList] (by decide) (by decide)
        ["m20240101_000000.sql".toList] [';'] ()).2.2 (by decide)⟩,
   ⟨((missing_marker_stops_run missingDownDirectory acceptAll).2
        "migrations/m20240102_000000.sql".toList "-- UP\nCREATE TABLE u(y INT);\n".toList
        ["migrations/m20240101_000000.sql".toList] (by decide) (by decide)
        ["migrations/m20240103_000000.sql".toList] ()).2.1,
     ((missing_marker_stops_run missingDownDirectory acceptAll).2
        "migrations/m20240102_000000.sql".toList "-- UP\nCREATE TABLE u(y INT);\n".toList
        ["migrations/m20240101_000000.sql".toList] (by decide) (by decide)
        ["migrations/m20240103_000000.sql".toList] ()).2.2 (by decide)⟩⟩

/-! ## Claim on a declined confirmation -/

/-- C13 as amended: when `migrateUp` or `migrateDown` gets as far as its
confirmation and the user answers `n`, the invocation returns as declined, and
the one statement handed to `execute` between its start and its return is the
`CREATE TABLE IF NOT EXISTS` of `dbInit`, which ran before the question; the
database is in the state that statement left. Besides it only the SELECT queries
on the tracking table were sent. And whatever the settings, the catalog and the
database, with a user who declines every question no invocation hands any other
statement to the database, and none enters the loop over the migrations. -/
theorem declined_runs_only_init {σ ε : Type} (D : Database σ ε)
    (catalog : List (List Char)) (readFile : List Char → Option (List Char))
    (confirm : List Char → Bool) (count : Nat) (db : σ) :
    (∀ migrations : List (List Char),
      (D.execute db createTableQuery).2 = none →
      migrateUpPlan
        (lastMigrationIdOf ((D.rows (D.execute db createTableQuery).1).length % 4294967296)
          (((D.rows (D.execute db createTableQuery).1).take 1).headD []))
        count catalog = some migrations →
      noMigrationsAvailable migrations = false →
      confirm (upPrompt migrations) = false →
      migrateUp D true catalog readFile confirm count db
        = ⟨(D.execute db createTableQuery).1, [(createTableQuery, true)],
            some (upPrompt migrations), Ending.declined⟩)
    ∧ ((D.execute db createTableQuery).2 = none →
      (D.rows (D.execute db createTableQuery).1).take count ≠ [] →
      confirm (downPrompt ((D.rows (D.execute db createTableQuery).1).length % 4294967296)
        (if count > (D.rows (D.execute db createTableQuery).1).length % 4294967296
          then (D.rows (D.execute db createTableQuery).1).length % 4294967296
          else count)) = false →
      migrateDown D true readFile confirm count db
        = ⟨(D.execute db createTableQuery).1, [(createTableQuery, true)],
            some (downPrompt ((D.rows (D.execute db createTableQuery).1).length % 4294967296)
              (if count > (D.rows (D.execute db createTableQuery).1).length % 4294967296
                then (D.rows (D.execute db createTableQuery).1).length % 4294967296
                else count)), Ending.declined⟩)
    ∧ (∀ connects : Bool, (∀ p, confirm p = false) →
      ((migrateUp D connects catalog readFile confirm count db).executed = []
        ∨ ∃ accepted, (migrateUp D connects catalog readFile confirm count db).executed
            = [(createTableQuery, accepted)])
      ∧ ∀ o, (migrateUp D connects catalog readFile confirm count db).ending
          ≠ Ending.ran o)
    ∧ (∀ connects : Bool, (∀ p, confirm p = false) →
      ((migrateDown D connects readFile confirm count db).executed = []
        ∨ ∃ accepted, (migrateDown D connects readFile confirm count db).executed
            = [(createTableQuery, accepted)])
      ∧ ∀ o, (migrateDown D connects readFile confirm count db).ending
          ≠ Ending.ran o) := by
  refine ⟨?_, ?_, ?_, ?_⟩
  · intro migrations h1 h2 h3 h4
    unfold migrateUp
    simp only [Bool.not_true, Bool.false_eq_true, if_false]
    rw [execute_accepted D.execute _ _ h1]
    simp only [h2, h3, h4, Bool.not_false, if_true, Bool.false_eq_true, if_false]
  · intro h1 h2 h4
    unfold migrateDown
    simp only [Bool.not_true, Bool.false_eq_true, if_false]
    rw [execute_accepted D.execute _ _ h1]
    have hlen : ((((D.rows (D.execute db createTableQuery).1).take count).map
        downPath).length == 0) = false := by
      simp only [List.length_map, beq_eq_false_iff_ne, ne_eq, List.length_eq_zero]
      exact h2
    simp only [hlen, h4, Bool.not_false, if_true, Bool.false_eq_true, if_false]
  · intro connects hno
    unfold migrateUp
    cases connects with
    | false => simp
    | true =>
      rcases hx : D.execute db createTableQuery with ⟨db1, _ | e⟩
      · simp only [Bool.not_true, Bool.false_eq_true, if_false]
        cases hp : migrateUpPlan
            (lastMigrationIdOf ((D.rows db1).length % 4294967296)
              (((D.rows db1).take 1).headD [])) count catalog with
        | none => simp
        | some migrations =>
          simp only
          by_cases hna : noMigrationsAvailable migrations = true
          · simp [hna]
          · simp [hna, hno]
      · simp
  · intro connects hno
    unfold migrateDown
    cases connects with
    | false => simp
    | true =>
      rcases hx : D.execute db createTableQuery with ⟨db1, _ | e⟩
      · simp only [Bool.not_true, Bool.false_eq_true, if_false]
        by_cases hlen : ((((D.rows db1).take count).map downPath).length == 0) = true
        · simp only [hlen, if_true]
          simp
        · simp only [hlen, if_false]
          simp [hno]
      · simp

theorem declined_runs_only_init_witness :
    migrateUp freshDatabase true ["m20240101_000000.sql".toList]
        (oneFile "-- UP\nCREATE TABLE t(x INT);\n-- DOWN\nDROP TABLE t;\n".toList)
        (fun _ => false) 0 (some [])
      = ⟨(freshDatabase.execute (some []) createTableQuery).1, [(createTableQuery, true)],
          some (upPrompt ["m20240101_000000.sql".toList]), Ending.declined⟩
    ∧ migrateDown freshDatabase true
        (oneFile "-- UP\nCREATE TABLE t(x INT);\n-- DOWN\nDROP TABLE t;\n".toList)
        (fun _ => false) 1 (some ["m20240101_000000".toList])
      = ⟨(freshDatabase.execute (some ["m20240101_000000".toList]) createTableQuery).1,
          [(createTableQuery, true)],
          some (downPrompt
            ((freshDatabase.rows (freshDatabase.execute (some ["m20240101_000000".toList])
              createTableQuery).1).length % 4294967296)
            (if 1 > (freshDatabase.rows (freshDatabase.execute
                  (some ["m20240101_000000".toList]) createTableQuery).1).length % 4294967296
              then (freshDatabase.rows (freshDatabase.execute
                  (some ["m20240101_000000".toList]) createTableQuery).1).length % 4294967296
              else 1)), Ending.declined⟩ :=
  ⟨(declined_runs_only_init freshDatabase ["m20240101_000000.sql".toList]
      (oneFile "-- UP\nCREATE TABLE t(x INT);\n-- DOWN\nDROP TABLE t;\n".toList)
      (fun _ => false) 0 (some [])).1 ["m20240101_000000.sql".toList]
      (by decide) (by decide) (by decide) rfl,
   (declined_runs_only_init freshDatabase ["m20240101_000000.sql".toList]
      (oneFile "-- UP\nCREATE TABLE t(x INT);\n-- DOWN\nDROP TABLE t;\n".toList)
      (fun _ => false) 1 (some ["m20240101_000000".toList])).2.1
      (by decide) (by decide) rfl⟩

end MigrationManager
